import Mathlib

/-!
Verification development for the build orchestration core of the repository
(`manifest/build.go`).  The Go source is shallowly embedded: pure string
manipulation is translated to executable Lean functions over `List Char`,
the side-effecting orchestration (`Build`) is translated to a pure function
from an explicit `World` oracle (the results of the external command runner
and of the filesystem) to a trace of issued operations plus an outcome, and
the recursive directory copy (`copyDir`/`copyFile`) is translated to a pure
transformer on a filesystem tree model.
-/

namespace Rack

/-! ## Models of the Go standard library string functions used by build.go -/

/-- Model of Go `strings.Split(s, sep)` for a one-character separator:
splits on every occurrence, keeping empty parts; `Split("", "/") = [""]`. -/
def splitByCharAux (sep : Char) : List Char → List Char → List String
  | [], cur => [String.mk cur.reverse]
  | c :: cs, cur =>
    if c = sep then String.mk cur.reverse :: splitByCharAux sep cs []
    else splitByCharAux sep cs (c :: cur)

def goSplitChar (s : String) (sep : Char) : List String :=
  splitByCharAux sep s.toList []

/-- ASCII part of Go `unicode.IsSpace` (space, tab, newline, carriage
return, vertical tab, form feed); build.go only feeds it Dockerfile text. -/
def isGoSpace (c : Char) : Bool :=
  (c == ' ') || (c == '\t') || (c == '\n') || (c == '\x0d') || (c == '\x0b') || (c == '\x0c')

/-- Model of Go `strings.Fields`: the maximal runs of non-space characters. -/
def fieldsAux : List Char → List Char → List String
  | [], cur => if cur.isEmpty then [] else [String.mk cur.reverse]
  | c :: cs, cur =>
    if isGoSpace c then
      if cur.isEmpty then fieldsAux cs []
      else String.mk cur.reverse :: fieldsAux cs []
    else fieldsAux cs (c :: cur)

def goFields (s : String) : List String := fieldsAux s.toList []

/-- Strip one trailing carriage return, as `bufio.ScanLines` does via dropCR. -/
def dropTrailCR (l : List Char) : List Char :=
  if l.getLast? = some '\x0d' then l.dropLast else l

/-- Model of scanning with `bufio.Scanner` + `bufio.ScanLines`: tokens are
the newline-separated lines, each with a trailing CR removed; no final empty
token is produced when the data ends with a newline, and empty data yields
no tokens. -/
def scanLinesAux : List Char → List Char → List String
  | [], cur => if cur.isEmpty then [] else [String.mk (dropTrailCR cur.reverse)]
  | c :: cs, cur =>
    if c = '\n' then String.mk (dropTrailCR cur.reverse) :: scanLinesAux cs []
    else scanLinesAux cs (c :: cur)

def scanLines (data : String) : List String := scanLinesAux data.toList []

/-- Model of Go `strings.SplitN(s, "=", 2)[0]`: the text before the first
`=`, or all of `s` when it has none. -/
def splitN2First (s : String) : String :=
  String.mk (s.toList.takeWhile (fun c => c ≠ '='))

/-- Model of Go `strings.Contains(s, sub)` for a one-character `sub`. -/
def goContainsChar (s : String) (c : Char) : Bool := s.toList.contains c

def startsWithL : List Char → List Char → Bool
  | [], _ => true
  | _ :: _, [] => false
  | a :: as, b :: bs => a == b && startsWithL as bs

def hasSubList (needle : List Char) : List Char → Bool
  | [] => needle.isEmpty
  | b :: bs => startsWithL needle (b :: bs) || hasSubList needle bs

/-- Model of Go `strings.Contains(s, sub)` (substring containment). -/
def goContainsStr (s sub : String) : Bool := hasSubList sub.toList s.toList

/-- Model of Go `filepath.Join` restricted to what build.go needs: empty
components are skipped and the rest are joined with `/`.  The lexical
cleaning Join also performs (collapsing `.` and `..` segments) is not
modelled; no claim depends on it. -/
def goJoin (a b : String) : String :=
  if a = "" then b else if b = "" then a else a ++ "/" ++ b

/-- `coalesce` is defined elsewhere in the manifest package (not under the
source tree given).  Modelled from the spec: the defaulting rules in §4.2
step 2 ("context defaults to the build-context directory (default \".\"),
file defaults to \"Dockerfile\" unless the service specifies an override")
mean it returns its first argument unless that is empty. -/
def coalesce (a b : String) : String := if a = "" then b else a

/-! ## Association-list model of the Go maps used by build.go

Go maps have unique keys; lookup is keyed, assignment overwrites.  The
association list carries an explicit (arbitrary) iteration order, which is
what lets order-independence of the produced command lines be stated. -/

def mapLookup : List (String × String) → String → Option String
  | [], _ => none
  | (k, v) :: rest, key => if k = key then some v else mapLookup rest key

/-- Go map assignment `m[k] = v` on the association-list model. -/
def mapInsert : List (String × String) → String → String → List (String × String)
  | [], k, v => [(k, v)]
  | (k0, v0) :: rest, k, v =>
    if k0 = k then (k0, v) :: rest else (k0, v0) :: mapInsert rest k v

/-! ## A boolean lexicographic order on strings and insertion sort

Go `sort.Strings` sorts byte-wise lexicographically; for the ASCII command
fragments involved this coincides with code-point order, modelled here. -/

def charListLe : List Char → List Char → Bool
  | [], _ => true
  | _ :: _, [] => false
  | a :: as, b :: bs =>
    if a.toNat < b.toNat then true
    else if b.toNat < a.toNat then false
    else charListLe as bs

def strLeB (a b : String) : Bool := charListLe a.toList b.toList

def insertStr (x : String) : List String → List String
  | [] => [x]
  | y :: ys => if strLeB x y then x :: y :: ys else y :: insertStr x ys

/-- Model of Go `sort.Strings` (insertion sort; the result is the unique
lexicographically sorted permutation for the duplicate-free key lists it is
applied to). -/
def sortStrings (l : List String) : List String := l.foldr insertStr []

/-! ## Filesystem tree model for copyFile / copyDir (build.go:214-308)

A directory's `entries` list is kept in the order `ioutil.ReadDir` returns
it (sorted by name); the copy functions never depend on that order.  A
`file` carries content bytes, permission bits, and access / modification
timestamps; `ioutil.ReadDir` uses lstat, so a symbolic link shows up as a
`symlink` entry (its mode has the symlink bit set and `IsDir` is false),
which is exactly how build.go:289-298 classifies entries. -/

inductive Entry where
  | file (content : List Nat) (mode : Nat) (atime mtime : Nat)
  | symlink (target : String)
  | dir (mode : Nat) (entries : List (String × Entry))

/-- Model of `copyFile` (build.go:214-253) on a regular-file node: the
destination is created with the source's bytes, `Chmod` copies the mode
bits, and `Chtimes(dst, stat.ModTime(), stat.ModTime())` sets BOTH the
access and the modification timestamp to the source's modification time.
`copyDir` only calls it on non-directory, non-symlink entries. -/
def copyFileGo : Entry → Option Entry
  | .file c mode _ mt => some (.file c mode mt mt)
  | _ => none

mutual

/-- One entry of the `copyDir` walk (build.go:285-305), named `n` inside the
source directory at `srcPath`.  A sub-directory is a recursive `copyDir`
call whose own checks always pass (the destination parent was just created,
so the nested destination path does not exist): it performs the `MkdirAll`
of build.go:275 and recurses.  A symlink is ignored (build.go:295-298).  A
regular file goes through `copyFile`.  The first component is the trace of
filesystem writes, in order; the second is the produced named destination
entry, or `none` for a skipped symlink. -/
def copyEntryGo (srcPath dstPath n : String) :
    Entry → List String × Option (String × Entry)
  | .dir m es =>
    let inner := copyEntriesGo (goJoin srcPath n) (goJoin dstPath n) es
    (("mkdir " ++ goJoin dstPath n) :: inner.1, some (n, .dir m inner.2))
  | .symlink _ => ([], none)
  | .file c m _ mt =>
    (["create " ++ goJoin dstPath n], some (n, .file c m mt mt))

/-- The entry loop of `copyDir` (build.go:285-305) over the `ReadDir`
listing of the source directory at `srcPath`. -/
def copyEntriesGo (srcPath dstPath : String) :
    List (String × Entry) → List String × List (String × Entry)
  | [] => ([], [])
  | (n, e) :: rest =>
    let h := copyEntryGo srcPath dstPath n e
    let t := copyEntriesGo srcPath dstPath rest
    (h.1 ++ t.1,
      match h.2 with
      | some p => p :: t.2
      | none => t.2)

end

/-- Result of `copyDir`: the produced destination tree or the error message,
together with the trace of filesystem writes performed before returning. -/
inductive CopyRes where
  | ok (result : Entry) (writes : List String)
  | err (msg : String) (writes : List String)

/-- Model of `copyDir(src, dst)` (build.go:255-308).  `src` / `dst` are the
nodes currently at the two (cleaned) paths, or `none` when the path does not
exist.  The guards run in source order: `os.Stat(src)` fails when the source
is absent; a non-directory source is rejected; an existing destination is
rejected BEFORE any write; only then is the destination created and filled.
Top-level `os.Stat` follows symlinks, so a symlink source node stands for an
unresolvable link and is rejected like a non-directory. -/
def copyDirGo (srcPath dstPath : String) (src dst : Option Entry) : CopyRes :=
  match src with
  | none => .err "no such file or directory" []
  | some s =>
    match s with
    | .dir m es =>
      match dst with
      | some _ => .err "destination already exists" []
      | none =>
        let inner := copyEntriesGo srcPath dstPath es
        .ok (.dir m inner.2) (("mkdir " ++ dstPath) :: inner.1)
    | _ => .err "source is not a directory" []

mutual

/-- Does the tree contain a symbolic-link entry anywhere? -/
def entryHasLink : Entry → Bool
  | .symlink _ => true
  | .file _ _ _ _ => false
  | .dir _ es => entriesHaveLink es

def entriesHaveLink : List (String × Entry) → Bool
  | [] => false
  | (_, e) :: rest => entryHasLink e || entriesHaveLink rest

end

/-! ## buildArgs (build.go:188-212) -/

/-- Result of `buildArgs`: the read error, the declared-argument list, or
the index-out-of-range panic Go raises at build.go:207 when a line's token
list is exactly `["ARG"]` (then `parts[1]` does not exist). -/
inductive BAResult where
  | readErr (msg : String)
  | panicOOB
  | ok (args : List String)
deriving DecidableEq

/-- The scanner loop of `buildArgs` (build.go:198-209): for each line, split
into whitespace-delimited fields; skip empty lines; on a line whose first
field is `ARG`, access `parts[1]` — modelled as `none` (panic) when it does
not exist — and append its text before any `=`. -/
def buildArgsScan : List String → Option (List String)
  | [] => some []
  | line :: rest =>
    match goFields line with
    | [] => buildArgsScan rest
    | p0 :: ptail =>
      if p0 = "ARG" then
        match ptail with
        | [] => none
        | p1 :: _ => (buildArgsScan rest).map (fun as => splitN2First p1 :: as)
      else buildArgsScan rest

/-- Model of `buildArgs(dockerfile)` (build.go:188-212), taking the result
of `ioutil.ReadFile` on the path as input. -/
def buildArgsGo (readRes : Except String String) : BAResult :=
  match readRes with
  | .error e => .readErr e
  | .ok data =>
    match buildArgsScan (scanLines data) with
    | none => .panicOOB
    | some args => .ok args

/-! ## Data model of Build (build.go:16-186) -/

/-- The build-relevant part of a `Service` (external model, spec §3).
`hash` is the opaque content hash `service.Build.Hash()` and `args` the
explicit build-argument map `service.Build.Args`, as an association list in
some iteration order. -/
structure ServiceBuild where
  context : String
  dockerfile : String
  args : List (String × String)
  hash : String
deriving DecidableEq

/-- A service as consumed by Build.  `tag` is the value of the opaque
derived destination tag `service.Tag(appName)` for this run's application
name (spec §3: "a canonical destination tag (function of application name
and service name)"). -/
structure Service where
  image : String
  dockerfile : String
  build : ServiceBuild
  tag : String
deriving DecidableEq

/-- `BuildOptions` (build.go:16-22), with the environment map as an
association list with unique keys. -/
structure BuildOptions where
  cache : Bool
  cacheDir : String
  environment : List (String × String)
  service : String
  verbose : Bool

abbrev Cmd := List String

/-- One observable operation of a Build run, in issue order: a command run
through `DefaultRunner.Run`, a `CombinedOutput` query, a line written to the
output sink `s`, an `os.RemoveAll`, a `copyDir` restore, the
`exec.Command("rm", "-rf", ...)` whose result build.go:149 discards, and an
`ioutil.ReadFile` performed by `buildArgs`. -/
inductive Ev where
  | run (cmd : Cmd)
  | query (cmd : Cmd)
  | sink (msg : String)
  | fsRemoveAll (path : String)
  | fsCopyDir (src dst : String)
  | rmrf (path : String)
  | readFile (path : String)
deriving DecidableEq

/-- Result of `os.Stat` as build.go:75-78 distinguishes it: success,
`os.IsNotExist`, or some other error (in which case build.go silently skips
the restore: neither branch of the if/else-if applies). -/
inductive StatRes where
  | statOk
  | statNotExist
  | statOtherErr
deriving DecidableEq

/-- The external world Build runs against: results of the command runner
(`run cmd = none` means success, `some e` the error text), of
`CombinedOutput`, and of the filesystem operations.  Each result is a
function of the operation's arguments.  `rmrf` is the error of
`exec.Command("rm", "-rf", path).Run()`: build.go:149 discards it, so no
definition below consults this field — which is exactly what makes "that
failure is neither fatal nor logged" a statable fact about the model. -/
structure World where
  run : Cmd → Option String
  combinedOutput : Cmd → Except String String
  stat : String → StatRes
  removeAll : String → Option String
  copyDirRes : String → String → Option String
  readFile : String → Except String String
  rmrf : String → Option String

/-- How a Build run ends: normal return, an error return, or the Go panic
of `buildArgs` on a bare `ARG` line. -/
inductive Outcome where
  | ok
  | err (msg : String)
  | panicked
deriving DecidableEq

/-! ## Build Planner (build.go:33-48) -/

/-- build.go:40-43: make the implicit `:latest` explicit — append it only
when the final `/`-separated segment of the reference contains no `:`. -/
def normalizeImage (image : String) : String :=
  if goContainsChar ((goSplitChar image '/').getLastD "") ':' then image
  else image ++ ":latest"

/-- build.go:44: `pulls[image] = append(pulls[image], tag)` on an
association list in first-insertion order (Go iterates the map in an
unspecified order; every claim below is stated per reference). -/
def addPull (pulls : List (String × List String)) (image tag : String) :
    List (String × List String) :=
  match pulls with
  | [] => [(image, [tag])]
  | (i, ts) :: rest =>
    if i = image then (i, ts ++ [tag]) :: rest
    else (i, ts) :: addPull rest image tag

/-- The planning loop (build.go:33-48).  The `dockerFile` computed at
build.go:34-37 is never used by this loop (dead there; the executor
recomputes it), so it is not modelled.  A service with an external image
reference joins the pull groups under its normalized reference; any other
service joins the build list in run order. -/
def planServices (services : List Service) :
    List (String × List String) × List Service :=
  services.foldl
    (fun acc service =>
      if service.image ≠ "" then
        (addPull acc.1 (normalizeImage service.image) service.tag, acc.2)
      else
        (acc.1, acc.2 ++ [service]))
    ([], [])

/-! ## Build Executor (build.go:50-161) -/

/-- The context directory of a build service (build.go:66). -/
def contextPath (dir : String) (s : Service) : String :=
  goJoin dir (coalesce s.build.context ".")

/-- The build-definition file path (build.go:67-69): the service-level
Dockerfile overridden by the build-level one, defaulting to `Dockerfile`,
resolved relative to the context. -/
def dockerFilePath (dir : String) (s : Service) : String :=
  goJoin (contextPath dir s) (coalesce s.build.dockerfile (coalesce s.dockerfile "Dockerfile"))

/-- The cache-restore step (build.go:71-90), which produces sink/filesystem
events only: its type already shows it cannot abort the run.  When a
cache-store root is configured and the hash-keyed entry stats OK, the local
staging directory is cleared (failure logged) and the entry copied into it;
a copy error is logged unless its message contains
"no such file or directory". -/
def restoreEvents (dir : String) (opts : BuildOptions) (w : World)
    (hash : String) : List Ev :=
  if opts.cacheDir = "" then []
  else
    let rcd := goJoin opts.cacheDir hash
    let lcd := goJoin (goJoin dir ".cache") "build"
    match w.stat rcd with
    | .statNotExist => []
    | .statOtherErr => []
    | .statOk =>
      (Ev.fsRemoveAll lcd ::
        (match w.removeAll lcd with
         | some e => [Ev.sink ("cache error: " ++ e)]
         | none => []))
      ++ (Ev.fsCopyDir rcd lcd ::
        (match w.copyDirRes rcd lcd with
         | some e =>
           if goContainsStr e "no such file or directory" then []
           else [Ev.sink ("cache error: " ++ e)]
         | none => []))

/-- The merged build-argument map (build.go:92-107): a copy of the
service's explicit argument map, then, for each name `buildArgs` found in
the build-definition file, the run environment's value when present. -/
def mergeBargs (svcArgs : List (String × String)) (dba : List String)
    (env : List (String × String)) : List (String × String) :=
  dba.foldl
    (fun m ba =>
      match mapLookup env ba with
      | some v => mapInsert m ba v
      | none => m)
    (svcArgs.foldl (fun m kv => mapInsert m kv.1 kv.2) [])

/-- build.go:109-119: the sorted `--build-arg NAME=VALUE` flag pairs. -/
def bargFlags (bargs : List (String × String)) : List String :=
  (sortStrings (bargs.map Prod.fst)).flatMap
    (fun name => ["--build-arg", name ++ "=" ++ (mapLookup bargs name).getD ""])

/-- The assembled build command (build.go:60-123): `build`, `--no-cache`
when caching is off, the sorted build-argument pairs, `-f` dockerfile,
`-t` tag, context. -/
def assembleBuildCmd (opts : BuildOptions) (bargs : List (String × String))
    (dockerFile tag context : String) : Cmd :=
  (["build"] ++ (if !opts.cache then ["--no-cache"] else []))
    ++ bargFlags bargs
    ++ ["-f", dockerFile] ++ ["-t", tag] ++ [context]

/-- The cache write-back step (build.go:142-158): create a temporary
container named by the hash, remove the stale store entry with
`rm -rf` (result discarded), extract `/var/cache/build`, remove the
container.  Every failure only writes to the sink; the type again shows the
step cannot abort the run. -/
def writeBackEvents (opts : BuildOptions) (w : World) (hash tag : String) :
    List Ev :=
  if opts.cacheDir = "" then []
  else
    let createCmd : Cmd := ["create", "--name", hash, tag]
    let cpCmd : Cmd := ["cp", hash ++ ":/var/cache/build", goJoin opts.cacheDir hash]
    let rmCmd : Cmd := ["rm", hash]
    (Ev.run createCmd ::
      (match w.run createCmd with
       | some e => [Ev.sink ("cache error: " ++ e)]
       | none => []))
    ++ [Ev.rmrf (goJoin opts.cacheDir hash)]
    ++ (Ev.run cpCmd ::
      (match w.run cpCmd with
       | some _ => [Ev.sink "ignoring build cache"]
       | none => []))
    ++ (Ev.run rmCmd ::
      (match w.run rmCmd with
       | some e => [Ev.sink ("cache error: " ++ e)]
       | none => []))

/-- Result of one executor step or of a loop: the hash-to-tag memo
(`buildCache`), the events issued, and `none` to continue or the outcome
that aborts the run. -/
structure StepRes where
  memo : List (String × String)
  events : List Ev
  abort : Option Outcome
deriving DecidableEq

/-- One iteration of the executor loop (build.go:52-161) for one service of
the build list.  A memo hit issues only the tag aliasing command
(build.go:53-58).  Otherwise: restore events, the `buildArgs` read (an
error is returned unwrapped, build.go:100; a bare `ARG` line panics), the
assembled build command (failure aborts with a wrapped "build error"), the
write-back events, and the memo update (build.go:160). -/
def buildStep (dir : String) (opts : BuildOptions) (w : World)
    (memo : List (String × String)) (service : Service) : StepRes :=
  match mapLookup memo service.build.hash with
  | some bc =>
    let cmd : Cmd := ["tag", bc, service.tag]
    match w.run cmd with
    | some e => ⟨memo, [Ev.run cmd], some (.err ("build error: " ++ e))⟩
    | none => ⟨memo, [Ev.run cmd], none⟩
  | none =>
    let context := contextPath dir service
    let dockerFile := dockerFilePath dir service
    let rEv := restoreEvents dir opts w service.build.hash
    match buildArgsGo (w.readFile dockerFile) with
    | .readErr e => ⟨memo, rEv ++ [Ev.readFile dockerFile], some (.err e)⟩
    | .panicOOB => ⟨memo, rEv ++ [Ev.readFile dockerFile], some .panicked⟩
    | .ok dba =>
      let bargs := mergeBargs service.build.args dba opts.environment
      let cmd := assembleBuildCmd opts bargs dockerFile service.tag context
      match w.run cmd with
      | some e =>
        ⟨memo, rEv ++ [Ev.readFile dockerFile, Ev.run cmd],
          some (.err ("build error: " ++ e))⟩
      | none =>
        ⟨mapInsert memo service.build.hash service.tag,
          rEv ++ [Ev.readFile dockerFile, Ev.run cmd]
            ++ writeBackEvents opts w service.build.hash service.tag,
          none⟩

/-- The executor loop over the build list (build.go:52-161), stopping at
the first aborting step. -/
def execLoop (dir : String) (opts : BuildOptions) (w : World) :
    List Service → List (String × String) → StepRes
  | [], memo => ⟨memo, [], none⟩
  | s :: rest, memo =>
    let r := buildStep dir opts w memo s
    match r.abort with
    | some o => ⟨r.memo, r.events, some o⟩
    | none =>
      let r2 := execLoop dir opts w rest r.memo
      ⟨r2.memo, r.events ++ r2.events, r2.abort⟩

/-! ## Image Puller (build.go:163-183) -/

/-- The tag loop (build.go:178-182): one `tag` command per registered
destination tag, in list order, aborting at the first failure. -/
def tagLoop (w : World) (image : String) : List String → List Ev × Option Outcome
  | [] => ([], none)
  | tag :: rest =>
    let cmd : Cmd := ["tag", image, tag]
    match w.run cmd with
    | some e => ([Ev.run cmd], some (.err ("build error: " ++ e)))
    | none =>
      let t := tagLoop w image rest
      (Ev.run cmd :: t.1, t.2)

/-- One iteration of the pull loop (build.go:163-183) for one normalized
reference and its registered tags.  The `images -q` query always runs and
its failure is returned unwrapped (build.go:168); the pull runs iff caching
is off or the query output is empty, failure aborting with a wrapped
"build error"; then the tag loop runs.  (The `args` slice built at
build.go:164,171 is never passed to a command and is not modelled.) -/
def pullStep (opts : BuildOptions) (w : World) (image : String)
    (tags : List String) : List Ev × Option Outcome :=
  let qcmd : Cmd := ["images", "-q", image]
  match w.combinedOutput qcmd with
  | .error e => ([Ev.query qcmd], some (.err e))
  | .ok output =>
    -- Go: !opts.Cache || len(output) == 0
    if opts.cache = false ∨ output = "" then
      match w.run ["pull", image] with
      | some e =>
        ([Ev.query qcmd, Ev.run ["pull", image]],
          some (.err ("build error: " ++ e)))
      | none =>
        let t := tagLoop w image tags
        (Ev.query qcmd :: Ev.run ["pull", image] :: t.1, t.2)
    else
      let t := tagLoop w image tags
      (Ev.query qcmd :: t.1, t.2)

/-- The pull loop over the plan's pull groups. -/
def pullLoop (opts : BuildOptions) (w : World) :
    List (String × List String) → List Ev × Option Outcome
  | [] => ([], none)
  | (image, tags) :: rest =>
    let r := pullStep opts w image tags
    match r.2 with
    | some o => (r.1, some o)
    | none =>
      let r2 := pullLoop opts w rest
      (r.1 ++ r2.1, r2.2)

/-! ## Build (build.go:24-186) -/

/-- The whole observable result of a Build run. -/
structure BuildRes where
  events : List Ev
  outcome : Outcome
deriving DecidableEq

/-- Model of `(m *Manifest) Build(dir, appName, s, opts)` (build.go:24-186).
`runOrderRes` is the result of the external `m.runOrder(opts.Service)`
(build.go:28-31), whose failure is returned as-is; `appName` enters only
through each service's precomputed destination tag.  Then: plan, executor
loop over the build list, pull loop over the pull groups. -/
def buildGo (dir : String) (runOrderRes : Except String (List Service))
    (opts : BuildOptions) (w : World) : BuildRes :=
  match runOrderRes with
  | .error e => ⟨[], .err e⟩
  | .ok services =>
    let plan := planServices services
    let er := execLoop dir opts w plan.2 []
    match er.abort with
    | some o => ⟨er.events, o⟩
    | none =>
      let pr := pullLoop opts w plan.1
      match pr.2 with
      | some o => ⟨er.events ++ pr.1, o⟩
      | none => ⟨er.events ++ pr.1, .ok⟩

/-! ## Event classifiers and spec-side definitions -/

/-- Is the event an invocation of the external runner? -/
def isRunEv : Ev → Bool
  | .run _ => true
  | _ => false

/-- Is the event a build-command invocation (a runner command whose first
word is `build`)? -/
def isBuildCmdEv : Ev → Bool
  | .run cmd => cmd.head? == some "build"
  | _ => false

/-- C7's spec-side extraction for one line: when the first
whitespace-delimited token is `ARG`, the second token's text up to but not
including an optional `=default` suffix; otherwise nothing. -/
def argSpecLine (line : String) : List String :=
  match goFields line with
  | "ARG" :: arg :: _ => [splitN2First arg]
  | _ => []

/-- C7's spec-side result: scan the lines in order, appending each
extracted name, preserving first-seen order with duplicates allowed. -/
def argSpec (lines : List String) : List String := lines.flatMap argSpecLine

mutual

/-- C9's (amended) spec-side transformer on the tree model: a regular file
keeps its content and permission bits and gets BOTH timestamps set to the
source's modification time; a symbolic link is dropped; a directory keeps
its mode and recurses. -/
def specCopyEntry : Entry → Option Entry
  | .file c m _ mt => some (.file c m mt mt)
  | .symlink _ => none
  | .dir m es => some (.dir m (specCopyList es))

def specCopyList : List (String × Entry) → List (String × Entry)
  | [] => []
  | (n, e) :: rest =>
    match specCopyEntry e with
    | some e2 => (n, e2) :: specCopyList rest
    | none => specCopyList rest

end

/-- A world identical to `w` except that the cache-restore `copyDir` always
succeeds; comparing a run against it expresses that a restore-copy failure
cannot change anything but the logged output. -/
def forgetCopyErr (w : World) : World :=
  { w with copyDirRes := fun _ _ => none }

/-- A world identical to `w` except that the stale cache-store entry
removal (`rm -rf`, build.go:149) always succeeds; a run being equal to the
same run against this world expresses that the removal's error — which the
code discards — influences nothing: it is neither fatal nor logged. -/
def forgetRmrf (w : World) : World :=
  { w with rmrf := fun _ => none }

/-! ## Claim conclusions

Each claim's conclusion is a named proposition so that its witness can
restate it verbatim at a concrete input. -/

/-- Conclusion of C1, for a build list `pre ++ s1 :: mid ++ [s2]` processed
from an empty memo: the run's executor trace splits into the four parts, the
part belonging to `s1` contains exactly one build-command invocation, `s2`'s
part is exactly the tag-only operation from `s1`'s destination tag to `s2`'s
destination tag, and the memo still maps the shared hash to `s1`'s tag when
`s2` is reached. -/
def C1Concl (dir : String) (opts : BuildOptions) (w : World)
    (pre mid : List Service) (s1 s2 : Service) : Prop :=
  let rPre := execLoop dir opts w pre []
  let r1 := buildStep dir opts w rPre.memo s1
  let rMid := execLoop dir opts w mid r1.memo
  (execLoop dir opts w (pre ++ s1 :: mid ++ [s2]) []).events
      = rPre.events ++ r1.events ++ rMid.events ++ [Ev.run ["tag", s1.tag, s2.tag]]
  ∧ r1.events.countP isBuildCmdEv = 1
  ∧ mapLookup rMid.memo s2.build.hash = some s1.tag

/-- Conclusion of C2: the step's first runner invocation is the assembled
build command; that command has the fixed shape with the `--build-arg`
pairs enumerated in lexicographically sorted name order; the merged
argument map is the service's explicit map overridden by the environment
value of every declared name; and the command is independent of the
iteration order of the explicit argument map. -/
def C2Concl (dir : String) (opts : BuildOptions) (w : World)
    (memo : List (String × String)) (s : Service) (dba : List String) : Prop :=
  let context := contextPath dir s
  let df := dockerFilePath dir s
  let bargs := mergeBargs s.build.args dba opts.environment
  (∃ t0 t2, (buildStep dir opts w memo s).events
      = t0 ++ Ev.run (assembleBuildCmd opts bargs df s.tag context) :: t2
      ∧ t0.countP isRunEv = 0)
  ∧ (∃ names, List.Pairwise (fun a b => strLeB a b = true) names
      ∧ names.Perm (bargs.map Prod.fst)
      ∧ assembleBuildCmd opts bargs df s.tag context
        = ["build"] ++ (if opts.cache then [] else ["--no-cache"])
          ++ names.flatMap
              (fun n => ["--build-arg", n ++ "=" ++ (mapLookup bargs n).getD ""])
          ++ ["-f", df] ++ ["-t", s.tag] ++ [context])
  ∧ (∀ k, mapLookup bargs k =
      if k ∈ dba ∧ (mapLookup opts.environment k).isSome
      then mapLookup opts.environment k
      else mapLookup s.build.args k)
  ∧ (∀ args2 : List (String × String), args2.Perm s.build.args →
      assembleBuildCmd opts (mergeBargs args2 dba opts.environment) df s.tag context
        = assembleBuildCmd opts bargs df s.tag context)

/-- Conclusion of C3: the two concrete normalizations; the general
characterization (append `:latest` exactly when the final `/`-separated
segment has no `:`); every pull group in a plan is keyed by the normalized
reference of one of the services; and the pull step uses the same normalized
key for the local-image query and for any pull command it issues. -/
def C3Concl : Prop :=
  normalizeImage "redis" = "redis:latest"
  ∧ normalizeImage "redis:1.2" = "redis:1.2"
  ∧ (∀ image, (goContainsChar ((goSplitChar image '/').getLastD "") ':' = false →
        normalizeImage image = image ++ ":latest")
      ∧ (goContainsChar ((goSplitChar image '/').getLastD "") ':' = true →
        normalizeImage image = image))
  ∧ (∀ services : List Service, ∀ image tags,
      (image, tags) ∈ (planServices services).1 →
      ∃ s ∈ services, s.image ≠ "" ∧ image = normalizeImage s.image)
  ∧ (∀ opts w image tags,
      (pullStep opts w image tags).1.head? = some (Ev.query ["images", "-q", image])
      ∧ ∀ cmd, Ev.run cmd ∈ (pullStep opts w image tags).1 →
          cmd.head? = some "pull" → cmd = ["pull", image])

/-- Conclusion of C4 for one pull-group entry `(image, tags)`: the query
always comes first; a query failure aborts with the unwrapped error and
nothing else happens; given query output, the pull command is issued exactly
when caching is off or the output is empty; a failed pull aborts before any
tag operation; when nothing fails, the trace is the query, the optional
pull, then exactly one tag operation per registered tag in recorded order;
and a failing tag operation aborts right after its own invocation, the
earlier tags already done. -/
def C4Concl (opts : BuildOptions) (w : World) (image : String)
    (tags : List String) : Prop :=
  let q : Cmd := ["images", "-q", image]
  let r := pullStep opts w image tags
  r.1.head? = some (Ev.query q)
  ∧ (∀ e, w.combinedOutput q = .error e → r = ([Ev.query q], some (.err e)))
  ∧ (∀ out, w.combinedOutput q = .ok out →
      ((Ev.run ["pull", image] ∈ r.1) ↔ (opts.cache = false ∨ out = ""))
      ∧ (∀ e, (opts.cache = false ∨ out = "") → w.run ["pull", image] = some e →
          r = ([Ev.query q, Ev.run ["pull", image]], some (.err ("build error: " ++ e))))
      ∧ (((opts.cache = false ∨ out = "") → w.run ["pull", image] = none) →
          (∀ t ∈ tags, w.run ["tag", image, t] = none) →
          r = (Ev.query q
                :: ((if opts.cache = false ∨ out = "" then [Ev.run ["pull", image]] else [])
                  ++ tags.map (fun t => Ev.run ["tag", image, t])), none))
      ∧ (∀ pre t post e, tags = pre ++ t :: post →
          ((opts.cache = false ∨ out = "") → w.run ["pull", image] = none) →
          (∀ t2 ∈ pre, w.run ["tag", image, t2] = none) →
          w.run ["tag", image, t] = some e →
          r = (Ev.query q
                :: ((if opts.cache = false ∨ out = "" then [Ev.run ["pull", image]] else [])
                  ++ (pre.map (fun t2 => Ev.run ["tag", image, t2])
                    ++ [Ev.run ["tag", image, t]])),
               some (.err ("build error: " ++ e)))))

/-- Conclusion of the amended C5: the non-"source absent" restore-copy
failure is written to the output sink as a cache error, and the step's
abort decision and memo are exactly what they would have been had the copy
succeeded — the failure is non-fatal. -/
def C5AmConcl (dir : String) (opts : BuildOptions) (w : World)
    (memo : List (String × String)) (s : Service) (e : String) : Prop :=
  Ev.sink ("cache error: " ++ e) ∈ (buildStep dir opts w memo s).events
  ∧ (buildStep dir opts w memo s).abort
      = (buildStep dir opts (forgetCopyErr w) memo s).abort
  ∧ (buildStep dir opts w memo s).memo
      = (buildStep dir opts (forgetCopyErr w) memo s).memo

/-- Conclusion of C6: copying fails when the source is absent, fails when
the source is a regular file, fails before any write when the destination
exists (so the destination is untouched), and succeeds on any source
directory — symlinks included — with no symlink entry in the result. -/
def C6Concl (sp dp : String) : Prop :=
  (∀ d, copyDirGo sp dp none d = .err "no such file or directory" [])
  ∧ (∀ c m a t d2, copyDirGo sp dp (some (.file c m a t)) d2
      = .err "source is not a directory" [])
  ∧ (∀ m es d, copyDirGo sp dp (some (.dir m es)) (some d)
      = .err "destination already exists" [])
  ∧ (∀ m es, ∃ res tr, copyDirGo sp dp (some (.dir m es)) none = .ok res tr
      ∧ entryHasLink res = false)

/-- Conclusion of C7: on readable data none of whose lines is a bare `ARG`,
`buildArgs` returns exactly the spec-described scan result; an unreadable
file yields the read error unchanged; and that read error aborts a Build
run containing the service. -/
def C7Concl (data : String) : Prop :=
  buildArgsGo (.ok data) = .ok (argSpec (scanLines data))
  ∧ (∀ e, buildArgsGo (.error e) = .readErr e)
  ∧ (∀ dir opts w s e, s.image = "" →
      w.readFile (dockerFilePath dir s) = .error e →
      (buildGo dir (.ok [s]) opts w).outcome = .err e)

/-- Conclusion of the amended C10: with a cache store configured, after a
successful build command the step never aborts and records the memo entry;
each failing temporary-container command (create / cp / rm) is logged to
the sink; and the stale store-entry removal is issued with its result
discarded — the step is identical, events included, to the step in which
that removal succeeds, so its failure is neither fatal nor logged. -/
def C10Concl (dir : String) (opts : BuildOptions) (w : World)
    (memo : List (String × String)) (s : Service) : Prop :=
  let r := buildStep dir opts w memo s
  r.abort = none
  ∧ r.memo = mapInsert memo s.build.hash s.tag
  ∧ Ev.rmrf (goJoin opts.cacheDir s.build.hash) ∈ r.events
  ∧ (∀ e, w.run ["create", "--name", s.build.hash, s.tag] = some e →
      Ev.sink ("cache error: " ++ e) ∈ r.events)
  ∧ (∀ e, w.run ["cp", s.build.hash ++ ":/var/cache/build",
        goJoin opts.cacheDir s.build.hash] = some e →
      Ev.sink "ignoring build cache" ∈ r.events)
  ∧ (∀ e, w.run ["rm", s.build.hash] = some e →
      Ev.sink ("cache error: " ++ e) ∈ r.events)
  ∧ r = buildStep dir opts (forgetRmrf w) memo s

/-! ## Concrete fixtures for witnesses and counterexamples -/

/-- A world where every external operation succeeds. -/
def wOK : World :=
  { run := fun _ => none
    combinedOutput := fun _ => Except.ok "img"
    stat := fun _ => .statNotExist
    removeAll := fun _ => none
    copyDirRes := fun _ _ => none
    readFile := fun _ => Except.ok ""
    rmrf := fun _ => none }

/-- Options with caching on and no cache store. -/
def optsPlain : BuildOptions :=
  { cache := true, cacheDir := "", environment := [], service := "", verbose := false }

/-- Options with caching on and a cache-store root configured. -/
def optsStore : BuildOptions :=
  { cache := true, cacheDir := "store", environment := [], service := "", verbose := false }

def svcA : Service :=
  { image := "", dockerfile := "", tag := "app/a",
    build := { context := "sub", dockerfile := "", args := [], hash := "h1" } }

def svcB : Service :=
  { image := "", dockerfile := "", tag := "app/b",
    build := { context := "sub", dockerfile := "", args := [], hash := "h1" } }

/-- A build-context fixture for C2: explicit arguments `B=2, A=1` in that
iteration order, a Dockerfile declaring `ARG A=1` and `ARG C`. -/
def svcC : Service :=
  { image := "", dockerfile := "", tag := "app/c",
    build := { context := "sub", dockerfile := "", args := [("B", "2"), ("A", "1")], hash := "h2" } }

def optsEnvC : BuildOptions :=
  { cache := false, cacheDir := "", environment := [("C", "3")], service := "", verbose := false }

def wArgsC : World :=
  { wOK with readFile := fun _ => Except.ok "FROM x\nARG A=1\nARG C\n" }

/-- A world whose cache-restore copy fails for a reason other than the
source being absent. -/
def wCopyFail : World :=
  { wOK with stat := fun _ => .statOk, copyDirRes := fun _ _ => some "permission denied" }

/-- A world where the three docker write-back commands all fail while the
build command itself succeeds. -/
def wWBFail : World :=
  { wOK with
    run := fun cmd =>
      match cmd.head? with
      | some "create" => some "create failed"
      | some "cp" => some "cp failed"
      | some "rm" => some "rm failed"
      | _ => none }

/-- A world where everything succeeds except the stale cache-store entry
removal (`rm -rf`, build.go:149), whose error the code discards. -/
def wRmrfFail : World :=
  { wOK with rmrf := fun _ => some "rm failed" }

/-- A world whose build-definition file contains a bare `ARG` line. -/
def wBadArg : World :=
  { wOK with readFile := fun _ => Except.ok "FROM x\nARG\n" }

/-- A world whose build-definition file cannot be read. -/
def wNoRead : World :=
  { wOK with readFile := fun _ => Except.error "open Dockerfile: permission denied" }

/-! # Theorems

First the library of small lemmas about the embedded definitions, then the
claim theorems themselves. -/

/-! ## Association-list map lemmas -/

theorem mapLookup_mapInsert (m : List (String × String)) (k v k' : String) :
    mapLookup (mapInsert m k v) k' = if k = k' then some v else mapLookup m k' := by
  induction m with
  | nil => simp [mapInsert, mapLookup]
  | cons kv rest ih =>
    obtain ⟨k0, v0⟩ := kv
    by_cases h0 : k0 = k
    · subst h0
      simp only [mapInsert, if_pos rfl, mapLookup]
      by_cases h1 : k0 = k' <;> simp [mapLookup, h1]
    · simp only [mapInsert, if_neg h0, mapLookup]
      rw [ih]
      by_cases h1 : k0 = k' <;> by_cases h2 : k = k' <;> simp [h1, h2]
      exact absurd (h1.trans h2.symm) h0

theorem mapLookup_eq_none (m : List (String × String)) (k : String) :
    mapLookup m k = none ↔ k ∉ m.map Prod.fst := by
  induction m with
  | nil => simp [mapLookup]
  | cons kv rest ih =>
    obtain ⟨k0, v0⟩ := kv
    by_cases h : k0 = k
    · subst h
      simp [mapLookup]
    · have h' : ¬ k = k0 := fun hh => h hh.symm
      simp [mapLookup, h, h', ih]

theorem mem_keys_mapInsert (m : List (String × String)) (k v k' : String) :
    k' ∈ (mapInsert m k v).map Prod.fst ↔ k' ∈ m.map Prod.fst ∨ k' = k := by
  induction m with
  | nil => simp [mapInsert]
  | cons kv rest ih =>
    obtain ⟨k0, v0⟩ := kv
    by_cases h0 : k0 = k
    · subst h0
      simp only [mapInsert, if_pos rfl]
      by_cases h1 : k' = k0 <;> simp [h1]
    · simp only [mapInsert, if_neg h0, List.map_cons, List.mem_cons, ih]
      tauto

theorem nodup_keys_mapInsert (m : List (String × String)) (k v : String)
    (h : (m.map Prod.fst).Nodup) : ((mapInsert m k v).map Prod.fst).Nodup := by
  induction m with
  | nil => simp [mapInsert]
  | cons kv rest ih =>
    obtain ⟨k0, v0⟩ := kv
    simp only [List.map_cons, List.nodup_cons] at h
    by_cases h0 : k0 = k
    · subst h0
      rw [show mapInsert ((k0, v0) :: rest) k0 v = (k0, v) :: rest from by
        simp [mapInsert]]
      simp only [List.map_cons, List.nodup_cons]
      exact h
    · simp only [mapInsert, if_neg h0, List.map_cons, List.nodup_cons]
      refine ⟨fun hin => ?_, ih h.2⟩
      rcases (mem_keys_mapInsert rest k v k0).mp hin with h1 | h1
      · exact h.1 h1
      · exact h0 h1

theorem mapLookup_eq_some_iff (m : List (String × String))
    (hm : (m.map Prod.fst).Nodup) (k v : String) :
    mapLookup m k = some v ↔ (k, v) ∈ m := by
  induction m with
  | nil => simp [mapLookup]
  | cons kv rest ih =>
    obtain ⟨k0, v0⟩ := kv
    simp only [List.map_cons, List.nodup_cons] at hm
    by_cases h : k0 = k
    · subst h
      simp only [mapLookup, if_pos rfl, List.mem_cons]
      constructor
      · rintro h1
        exact Or.inl (by simpa using h1.symm)
      · rintro (h1 | h1)
        · simpa using congrArg Prod.snd h1.symm
        · exact absurd (List.mem_map_of_mem Prod.fst h1) hm.1
    · simp only [mapLookup, if_neg h, List.mem_cons, ih hm.2]
      constructor
      · exact Or.inr
      · rintro (h1 | h1)
        · exact absurd (congrArg Prod.fst h1) (by simpa using fun hh => h hh.symm)
        · exact h1

theorem mapLookup_perm (m1 m2 : List (String × String)) (h : m1.Perm m2)
    (hm : (m1.map Prod.fst).Nodup) (k : String) :
    mapLookup m1 k = mapLookup m2 k := by
  have hm2 : (m2.map Prod.fst).Nodup := ((h.map Prod.fst).nodup hm)
  cases hv : mapLookup m1 k with
  | some v =>
    have := (mapLookup_eq_some_iff m1 hm k v).mp hv
    exact ((mapLookup_eq_some_iff m2 hm2 k v).mpr (h.mem_iff.mp this)).symm
  | none =>
    rw [mapLookup_eq_none] at hv
    exact ((mapLookup_eq_none m2 k).mpr
      (fun hk => hv ((h.map Prod.fst).mem_iff.mpr hk))).symm

/-! ## The lexicographic order and insertion sort -/

theorem charListLe_total : ∀ a b : List Char,
    charListLe a b = true ∨ charListLe b a = true := by
  intro a
  induction a with
  | nil => intro b; left; simp [charListLe]
  | cons x xs ih =>
    intro b
    cases b with
    | nil => right; simp [charListLe]
    | cons y ys =>
      simp only [charListLe]
      rcases Nat.lt_trichotomy x.toNat y.toNat with h | h | h
      · left; simp [h]
      · have h1 : ¬ x.toNat < y.toNat := by omega
        have h2 : ¬ y.toNat < x.toNat := by omega
        simpa [h1, h2] using ih ys
      · right; simp [h]

theorem charListLe_trans : ∀ a b c : List Char,
    charListLe a b = true → charListLe b c = true → charListLe a c = true := by
  intro a
  induction a with
  | nil => intro b c _ _; simp [charListLe]
  | cons x xs ih =>
    intro b c hab hbc
    cases b with
    | nil => simp [charListLe] at hab
    | cons y ys =>
      cases c with
      | nil => simp [charListLe] at hbc
      | cons z zs =>
        simp only [charListLe] at hab hbc ⊢
        rcases Nat.lt_trichotomy x.toNat y.toNat with h1 | h1 | h1 <;>
          rcases Nat.lt_trichotomy y.toNat z.toNat with h2 | h2 | h2 <;>
          simp_all <;>
          first
            | omega
            | exact ih ys zs hab hbc

theorem charListLe_antisymm : ∀ a b : List Char,
    charListLe a b = true → charListLe b a = true → a = b := by
  intro a
  induction a with
  | nil =>
    intro b _ hba
    cases b with
    | nil => rfl
    | cons y ys => simp [charListLe] at hba
  | cons x xs ih =>
    intro b hab hba
    cases b with
    | nil => simp [charListLe] at hab
    | cons y ys =>
      simp only [charListLe] at hab hba
      rcases Nat.lt_trichotomy x.toNat y.toNat with h | h | h
      · simp_all; omega
      · have hx : x = y := Char.ext (UInt32.toNat.inj h)
        subst hx
        simp_all
        exact ih ys hab hba
      · simp_all; omega

theorem strLeB_total (a b : String) : strLeB a b = true ∨ strLeB b a = true :=
  charListLe_total a.toList b.toList

theorem strLeB_trans (a b c : String) (h1 : strLeB a b = true)
    (h2 : strLeB b c = true) : strLeB a c = true :=
  charListLe_trans a.toList b.toList c.toList h1 h2

theorem strLeB_antisymm (a b : String) (h1 : strLeB a b = true)
    (h2 : strLeB b a = true) : a = b := by
  have h := charListLe_antisymm a.toList b.toList h1 h2
  cases a; cases b
  simp only [String.toList] at h
  simp [h]

theorem strLeB_of_not (a b : String) (h : ¬ strLeB a b = true) :
    strLeB b a = true := by
  rcases strLeB_total a b with h1 | h1
  · exact absurd h1 h
  · exact h1

theorem insertStr_perm (x : String) (l : List String) :
    (insertStr x l).Perm (x :: l) := by
  induction l with
  | nil => simp [insertStr]
  | cons y ys ih =>
    simp only [insertStr]
    by_cases h : strLeB x y = true
    · simp [h]
    · simp only [if_neg h]
      exact (ih.cons y).trans (List.Perm.swap x y ys)

theorem mem_insertStr (x a : String) (l : List String) :
    a ∈ insertStr x l ↔ a = x ∨ a ∈ l := by
  rw [(insertStr_perm x l).mem_iff]
  simp

theorem insertStr_sorted (x : String) (l : List String)
    (h : List.Pairwise (fun a b => strLeB a b = true) l) :
    List.Pairwise (fun a b => strLeB a b = true) (insertStr x l) := by
  induction l with
  | nil => simp [insertStr]
  | cons y ys ih =>
    rw [List.pairwise_cons] at h
    simp only [insertStr]
    by_cases hxy : strLeB x y = true
    · rw [if_pos hxy, List.pairwise_cons]
      refine ⟨fun a ha => ?_, List.pairwise_cons.mpr h⟩
      rcases List.mem_cons.mp ha with h1 | h1
      · exact h1 ▸ hxy
      · exact strLeB_trans x y a hxy (h.1 a h1)
    · rw [if_neg hxy, List.pairwise_cons]
      refine ⟨fun a ha => ?_, ih h.2⟩
      rcases (mem_insertStr x a ys).mp ha with h1 | h1
      · exact h1 ▸ strLeB_of_not x y hxy
      · exact h.1 a h1

theorem sortStrings_perm (l : List String) : (sortStrings l).Perm l := by
  induction l with
  | nil => simp [sortStrings]
  | cons x xs ih =>
    simp only [sortStrings, List.foldr_cons]
    exact (insertStr_perm x _).trans (ih.cons x)

theorem sortStrings_sorted (l : List String) :
    List.Pairwise (fun a b => strLeB a b = true) (sortStrings l) := by
  induction l with
  | nil => simp [sortStrings]
  | cons x xs ih =>
    simp only [sortStrings, List.foldr_cons]
    exact insertStr_sorted x _ ih

theorem sortedPermEq : ∀ l1 l2 : List String,
    List.Pairwise (fun a b => strLeB a b = true) l1 →
    List.Pairwise (fun a b => strLeB a b = true) l2 →
    l1.Perm l2 → l1 = l2 := by
  intro l1
  induction l1 with
  | nil => intro l2 _ _ hp; simpa using hp.nil_eq
  | cons x xs ih =>
    intro l2 h1 h2 hp
    cases l2 with
    | nil => exact absurd hp.symm (by simp)
    | cons y ys =>
      rw [List.pairwise_cons] at h1 h2
      have hxy : x = y := by
        have hx2 : x ∈ y :: ys := hp.mem_iff.mp (by simp)
        have hy1 : y ∈ x :: xs := hp.mem_iff.mpr (by simp)
        rcases List.mem_cons.mp hx2 with hc | hc
        · exact hc
        rcases List.mem_cons.mp hy1 with hc2 | hc2
        · exact hc2.symm
        · exact strLeB_antisymm x y (h1.1 y hc2) (h2.1 x hc)
      subst hxy
      rw [ih ys h1.2 h2.2 (hp.cons_inv)]

/-! ## The merged build-argument map -/

theorem mapLookup_foldl_insert (l : List (String × String))
    (hnd : (l.map Prod.fst).Nodup) :
    ∀ m0 k, mapLookup (l.foldl (fun m kv => mapInsert m kv.1 kv.2) m0) k =
      match mapLookup l k with
      | some v => some v
      | none => mapLookup m0 k := by
  induction l with
  | nil => intro m0 k; simp [mapLookup]
  | cons kv tl ih =>
    obtain ⟨k0, v0⟩ := kv
    simp only [List.map_cons, List.nodup_cons] at hnd
    intro m0 k
    rw [List.foldl_cons, ih hnd.2]
    by_cases hk : k0 = k
    · subst hk
      have h0 : mapLookup tl k0 = none := (mapLookup_eq_none tl k0).mpr hnd.1
      rw [h0]
      simp [mapLookup, mapLookup_mapInsert]
    · cases h1 : mapLookup tl k with
      | some v => simp [mapLookup, hk, h1]
      | none => simp [mapLookup, hk, h1, mapLookup_mapInsert]

/-- The lookup semantics of the declared-argument override loop
(build.go:103-107), for any base map. -/
theorem mapLookup_dbaFold (dba : List String) (env : List (String × String)) :
    ∀ b0 k, mapLookup
        (dba.foldl
          (fun m ba =>
            match mapLookup env ba with
            | some v => mapInsert m ba v
            | none => m) b0) k =
      if k ∈ dba ∧ (mapLookup env k).isSome then mapLookup env k
      else mapLookup b0 k := by
  induction dba with
  | nil => intro b0 k; simp
  | cons ba tl ih =>
    intro b0 k
    rw [List.foldl_cons, ih]
    by_cases htl : k ∈ tl ∧ (mapLookup env k).isSome
    · rw [if_pos htl, if_pos ⟨List.mem_cons_of_mem ba htl.1, htl.2⟩]
    · rw [if_neg htl]
      cases henv : mapLookup env ba with
      | some v =>
        rw [mapLookup_mapInsert]
        by_cases hba : ba = k
        · subst hba
          rw [if_pos rfl, if_pos ⟨List.mem_cons_self ba tl, by simp [henv]⟩, henv]
        · rw [if_neg hba, if_neg]
          intro hcon
          rcases List.mem_cons.mp hcon.1 with hc | hc
          · exact hba hc.symm
          · exact htl ⟨hc, hcon.2⟩
      | none =>
        rw [if_neg]
        intro hcon
        rcases List.mem_cons.mp hcon.1 with hc | hc
        · subst hc
          rw [henv] at hcon
          simp at hcon
        · exact htl ⟨hc, hcon.2⟩

/-- C2's merged-map semantics: the explicit service arguments, overridden by
the environment value of every declared name. -/
theorem mapLookup_mergeBargs (svcArgs : List (String × String))
    (dba : List String) (env : List (String × String))
    (hnd : (svcArgs.map Prod.fst).Nodup) (k : String) :
    mapLookup (mergeBargs svcArgs dba env) k =
      if k ∈ dba ∧ (mapLookup env k).isSome then mapLookup env k
      else mapLookup svcArgs k := by
  unfold mergeBargs
  rw [mapLookup_dbaFold, mapLookup_foldl_insert svcArgs hnd]
  cases h : mapLookup svcArgs k <;> simp [mapLookup]

theorem nodup_keys_foldl_insert (l : List (String × String)) :
    ∀ m0, ((m0 : List (String × String)).map Prod.fst).Nodup →
    (((l.foldl (fun m kv => mapInsert m kv.1 kv.2) m0)).map Prod.fst).Nodup := by
  induction l with
  | nil => intro m0 h; exact h
  | cons kv tl ih =>
    intro m0 h
    rw [List.foldl_cons]
    exact ih _ (nodup_keys_mapInsert m0 kv.1 kv.2 h)

theorem nodup_keys_dbaFold (dba : List String) (env : List (String × String)) :
    ∀ b0, ((b0 : List (String × String)).map Prod.fst).Nodup →
    ((dba.foldl
        (fun m ba =>
          match mapLookup env ba with
          | some v => mapInsert m ba v
          | none => m) b0).map Prod.fst).Nodup := by
  induction dba with
  | nil => intro b0 h; exact h
  | cons ba tl ih =>
    intro b0 h
    rw [List.foldl_cons]
    cases henv : mapLookup env ba with
    | some v => exact ih _ (nodup_keys_mapInsert b0 ba v h)
    | none => exact ih _ h

theorem nodup_keys_mergeBargs (svcArgs : List (String × String))
    (dba : List String) (env : List (String × String)) :
    ((mergeBargs svcArgs dba env).map Prod.fst).Nodup := by
  unfold mergeBargs
  exact nodup_keys_dbaFold dba env _ (nodup_keys_foldl_insert svcArgs [] (by simp))

/-- Two duplicate-free maps with the same lookup function produce the same
sorted flag list. -/
theorem bargFlags_congr (m1 m2 : List (String × String))
    (hnd1 : (m1.map Prod.fst).Nodup) (hnd2 : (m2.map Prod.fst).Nodup)
    (hl : ∀ k, mapLookup m1 k = mapLookup m2 k) :
    bargFlags m1 = bargFlags m2 := by
  have hmem : ∀ a, a ∈ m1.map Prod.fst ↔ a ∈ m2.map Prod.fst := by
    intro a
    constructor
    · intro ha
      by_contra hb
      have := (mapLookup_eq_none m2 a).mpr hb
      rw [← hl a, mapLookup_eq_none] at this
      exact this ha
    · intro ha
      by_contra hb
      have := (mapLookup_eq_none m1 a).mpr hb
      rw [hl a, mapLookup_eq_none] at this
      exact this ha
  have hperm : (m1.map Prod.fst).Perm (m2.map Prod.fst) :=
    (List.perm_ext_iff_of_nodup hnd1 hnd2).mpr hmem
  have hsort : sortStrings (m1.map Prod.fst) = sortStrings (m2.map Prod.fst) :=
    sortedPermEq _ _ (sortStrings_sorted _) (sortStrings_sorted _)
      ((sortStrings_perm _).trans (hperm.trans (sortStrings_perm _).symm))
  unfold bargFlags
  rw [hsort]
  congr 1
  funext n
  rw [hl n]

/-! ## Directory copy lemmas -/

mutual

theorem copyEntryGo_spec (sp dp n : String) (e : Entry) :
    (copyEntryGo sp dp n e).2 = (specCopyEntry e).map (fun e2 => (n, e2)) := by
  cases e with
  | file c m a t => rfl
  | symlink t => rfl
  | dir m es =>
    simp only [copyEntryGo, specCopyEntry]
    rw [copyEntriesGo_spec (goJoin sp n) (goJoin dp n) es]
    rfl

theorem copyEntriesGo_spec (sp dp : String) (l : List (String × Entry)) :
    (copyEntriesGo sp dp l).2 = specCopyList l := by
  cases l with
  | nil => rfl
  | cons h rest =>
    obtain ⟨n, e⟩ := h
    simp only [copyEntriesGo, specCopyList]
    rw [copyEntryGo_spec sp dp n e, copyEntriesGo_spec sp dp rest]
    cases specCopyEntry e <;> rfl

end

mutual

theorem specCopyEntry_noLink (e : Entry) :
    ∀ e2, specCopyEntry e = some e2 → entryHasLink e2 = false := by
  cases e with
  | file c m a t =>
    intro e2 h
    simp only [specCopyEntry, Option.some.injEq] at h
    subst h
    rfl
  | symlink t => intro e2 h; simp [specCopyEntry] at h
  | dir m es =>
    intro e2 h
    simp only [specCopyEntry, Option.some.injEq] at h
    subst h
    simpa [entryHasLink] using specCopyList_noLink es

theorem specCopyList_noLink (l : List (String × Entry)) :
    entriesHaveLink (specCopyList l) = false := by
  cases l with
  | nil => rfl
  | cons h rest =>
    obtain ⟨n, e⟩ := h
    simp only [specCopyList]
    cases he : specCopyEntry e with
    | none => exact specCopyList_noLink rest
    | some e2 =>
      simp only [entriesHaveLink, Bool.or_eq_false_iff]
      exact ⟨specCopyEntry_noLink e e2 he, specCopyList_noLink rest⟩

end

/-! ## buildArgs scan lemma -/

theorem buildArgsScan_spec (lines : List String)
    (h : ∀ line ∈ lines, goFields line ≠ ["ARG"]) :
    buildArgsScan lines = some (argSpec lines) := by
  induction lines with
  | nil => rfl
  | cons line rest ih =>
    have hrest : ∀ l ∈ rest, goFields l ≠ ["ARG"] :=
      fun l hl => h l (List.mem_cons_of_mem line hl)
    have hline := h line (List.mem_cons_self line rest)
    simp only [buildArgsScan, argSpec, List.flatMap_cons, argSpecLine]
    cases hf : goFields line with
    | nil => simpa [argSpec] using ih hrest
    | cons p0 ptail =>
      by_cases hp0 : p0 = "ARG"
      · subst hp0
        cases ptail with
        | nil => exact absurd hf hline
        | cons p1 ptl => simp [ih hrest, argSpec]
      · cases ptail with
        | nil => simp [hp0, ih hrest, argSpec]
        | cons p1 ptl => simp [hp0, ih hrest, argSpec]

/-! ## Event classification lemmas -/

theorem isBuildCmdEv_run_cons (s : String) (l : List String) (h : s ≠ "build") :
    isBuildCmdEv (Ev.run (s :: l)) = false := by
  simp [isBuildCmdEv, h]

theorem isBuildCmdEv_assemble (opts : BuildOptions) (bargs : List (String × String))
    (df tag ctx : String) :
    isBuildCmdEv (Ev.run (assembleBuildCmd opts bargs df tag ctx)) = true := by
  simp [isBuildCmdEv, assembleBuildCmd, List.cons_append]

theorem restoreEvents_countP (dir : String) (opts : BuildOptions) (w : World)
    (hash : String) (p : Ev → Bool)
    (hsink : ∀ msg, p (Ev.sink msg) = false)
    (hrm : ∀ path, p (Ev.fsRemoveAll path) = false)
    (hcp : ∀ a b, p (Ev.fsCopyDir a b) = false) :
    (restoreEvents dir opts w hash).countP p = 0 := by
  unfold restoreEvents
  by_cases hcd : opts.cacheDir = ""
  · simp [hcd]
  · rw [if_neg hcd]
    cases hstat : w.stat (goJoin opts.cacheDir hash) with
    | statNotExist => simp [hstat]
    | statOtherErr => simp [hstat]
    | statOk =>
      cases hra : w.removeAll (goJoin (goJoin dir ".cache") "build") with
      | some e1 =>
        cases hcr : w.copyDirRes (goJoin opts.cacheDir hash)
            (goJoin (goJoin dir ".cache") "build") with
        | some e2 =>
          by_cases hg : goContainsStr e2 "no such file or directory" = true <;>
            simp [hstat, hra, hcr, hg, List.countP_cons, List.countP_append,
              hsink, hrm, hcp]
        | none =>
          simp [hstat, hra, hcr, List.countP_cons, List.countP_append, hsink, hrm, hcp]
      | none =>
        cases hcr : w.copyDirRes (goJoin opts.cacheDir hash)
            (goJoin (goJoin dir ".cache") "build") with
        | some e2 =>
          by_cases hg : goContainsStr e2 "no such file or directory" = true <;>
            simp [hstat, hra, hcr, hg, List.countP_cons, List.countP_append,
              hsink, hrm, hcp]
        | none =>
          simp [hstat, hra, hcr, List.countP_cons, List.countP_append, hsink, hrm, hcp]

theorem writeBackEvents_countP_build (opts : BuildOptions) (w : World)
    (hash tag : String) :
    (writeBackEvents opts w hash tag).countP isBuildCmdEv = 0 := by
  unfold writeBackEvents
  by_cases hcd : opts.cacheDir = ""
  · simp [hcd]
  · rw [if_neg hcd]
    cases h1 : w.run ["create", "--name", hash, tag] <;>
      cases h2 : w.run ["cp", hash ++ ":/var/cache/build", goJoin opts.cacheDir hash] <;>
      cases h3 : w.run ["rm", hash] <;>
      simp [h1, h2, h3, List.countP_cons, List.countP_append, isBuildCmdEv]

/-! ## buildStep characterizations -/

theorem buildStep_hit (dir : String) (opts : BuildOptions) (w : World)
    (memo : List (String × String)) (s : Service) (bc : String)
    (hbc : mapLookup memo s.build.hash = some bc) :
    buildStep dir opts w memo s =
      ⟨memo, [Ev.run ["tag", bc, s.tag]],
        match w.run ["tag", bc, s.tag] with
        | some e => some (.err ("build error: " ++ e))
        | none => none⟩ := by
  unfold buildStep
  rw [hbc]
  cases hr : w.run ["tag", bc, s.tag] <;> simp [hr]

theorem buildStep_miss_readErr (dir : String) (opts : BuildOptions) (w : World)
    (memo : List (String × String)) (s : Service) (e : String)
    (hmiss : mapLookup memo s.build.hash = none)
    (hre : buildArgsGo (w.readFile (dockerFilePath dir s)) = .readErr e) :
    buildStep dir opts w memo s =
      ⟨memo, restoreEvents dir opts w s.build.hash
          ++ [Ev.readFile (dockerFilePath dir s)], some (.err e)⟩ := by
  unfold buildStep
  rw [hmiss]
  simp only [hre]

theorem buildStep_miss_panic (dir : String) (opts : BuildOptions) (w : World)
    (memo : List (String × String)) (s : Service)
    (hmiss : mapLookup memo s.build.hash = none)
    (hre : buildArgsGo (w.readFile (dockerFilePath dir s)) = .panicOOB) :
    buildStep dir opts w memo s =
      ⟨memo, restoreEvents dir opts w s.build.hash
          ++ [Ev.readFile (dockerFilePath dir s)], some .panicked⟩ := by
  unfold buildStep
  rw [hmiss]
  simp only [hre]

theorem buildStep_miss_buildFail (dir : String) (opts : BuildOptions) (w : World)
    (memo : List (String × String)) (s : Service) (dba : List String) (e : String)
    (hmiss : mapLookup memo s.build.hash = none)
    (hok : buildArgsGo (w.readFile (dockerFilePath dir s)) = .ok dba)
    (hrun : w.run (assembleBuildCmd opts (mergeBargs s.build.args dba opts.environment)
        (dockerFilePath dir s) s.tag (contextPath dir s)) = some e) :
    buildStep dir opts w memo s =
      ⟨memo, restoreEvents dir opts w s.build.hash
          ++ [Ev.readFile (dockerFilePath dir s),
              Ev.run (assembleBuildCmd opts (mergeBargs s.build.args dba opts.environment)
                (dockerFilePath dir s) s.tag (contextPath dir s))],
        some (.err ("build error: " ++ e))⟩ := by
  unfold buildStep
  rw [hmiss]
  simp only [hok, hrun]

theorem buildStep_miss_buildOk (dir : String) (opts : BuildOptions) (w : World)
    (memo : List (String × String)) (s : Service) (dba : List String)
    (hmiss : mapLookup memo s.build.hash = none)
    (hok : buildArgsGo (w.readFile (dockerFilePath dir s)) = .ok dba)
    (hrun : w.run (assembleBuildCmd opts (mergeBargs s.build.args dba opts.environment)
        (dockerFilePath dir s) s.tag (contextPath dir s)) = none) :
    buildStep dir opts w memo s =
      ⟨mapInsert memo s.build.hash s.tag,
        restoreEvents dir opts w s.build.hash
          ++ [Ev.readFile (dockerFilePath dir s),
              Ev.run (assembleBuildCmd opts (mergeBargs s.build.args dba opts.environment)
                (dockerFilePath dir s) s.tag (contextPath dir s))]
          ++ writeBackEvents opts w s.build.hash s.tag,
        none⟩ := by
  unfold buildStep
  rw [hmiss]
  simp only [hok, hrun]

/-! ## execLoop lemmas -/

theorem execLoop_append (dir : String) (opts : BuildOptions) (w : World) :
    ∀ (l1 l2 : List Service) (memo : List (String × String)),
    execLoop dir opts w (l1 ++ l2) memo =
      (let r1 := execLoop dir opts w l1 memo
       match r1.abort with
       | some _ => r1
       | none =>
         let r2 := execLoop dir opts w l2 r1.memo
         ⟨r2.memo, r1.events ++ r2.events, r2.abort⟩) := by
  intro l1
  induction l1 with
  | nil => intro l2 memo; rfl
  | cons s tl ih =>
    intro l2 memo
    simp only [List.cons_append, execLoop, List.append_eq]
    cases habort : (buildStep dir opts w memo s).abort with
    | some o => simp [habort]
    | none =>
      simp only [habort]
      rw [ih l2]
      cases habort2 : (execLoop dir opts w tl (buildStep dir opts w memo s).memo).abort with
      | some o2 => simp [habort2]
      | none => simp [habort2, List.append_assoc]

theorem buildStep_memo_cases (dir : String) (opts : BuildOptions) (w : World)
    (memo : List (String × String)) (s : Service) :
    (buildStep dir opts w memo s).memo = memo ∨
    (mapLookup memo s.build.hash = none ∧
      (buildStep dir opts w memo s).memo = mapInsert memo s.build.hash s.tag) := by
  unfold buildStep
  cases hm : mapLookup memo s.build.hash with
  | some bc => cases hr : w.run ["tag", bc, s.tag] <;> simp [hm, hr]
  | none =>
    cases hb : buildArgsGo (w.readFile (dockerFilePath dir s)) with
    | readErr e => simp [hm, hb]
    | panicOOB => simp [hm, hb]
    | ok dba =>
      cases hr : w.run (assembleBuildCmd opts (mergeBargs s.build.args dba opts.environment)
          (dockerFilePath dir s) s.tag (contextPath dir s)) with
      | some e => simp [hm, hb, hr]
      | none => simp [hm, hb, hr]

theorem buildStep_lookup_some (dir : String) (opts : BuildOptions) (w : World)
    (memo : List (String × String)) (s : Service) (h v : String)
    (hv : mapLookup memo h = some v) :
    mapLookup (buildStep dir opts w memo s).memo h = some v := by
  rcases buildStep_memo_cases dir opts w memo s with hc | ⟨hm0, hc⟩
  · rw [hc]; exact hv
  · rw [hc, mapLookup_mapInsert]
    have hne : s.build.hash ≠ h := by
      intro hh
      rw [hh, hv] at hm0
      exact Option.noConfusion hm0
    rw [if_neg hne]
    exact hv

theorem buildStep_lookup_none (dir : String) (opts : BuildOptions) (w : World)
    (memo : List (String × String)) (s : Service) (h : String)
    (hne : s.build.hash ≠ h) (hv : mapLookup memo h = none) :
    mapLookup (buildStep dir opts w memo s).memo h = none := by
  rcases buildStep_memo_cases dir opts w memo s with hc | ⟨hm0, hc⟩
  · rw [hc]; exact hv
  · rw [hc, mapLookup_mapInsert, if_neg hne]
    exact hv

theorem execLoop_lookup_none (dir : String) (opts : BuildOptions) (w : World) :
    ∀ (l : List Service) (memo : List (String × String)) (h : String),
    mapLookup memo h = none → (∀ s ∈ l, s.build.hash ≠ h) →
    mapLookup (execLoop dir opts w l memo).memo h = none := by
  intro l
  induction l with
  | nil => intro memo h hm _; exact hm
  | cons s tl ih =>
    intro memo h hm hl
    have hstep : mapLookup (buildStep dir opts w memo s).memo h = none :=
      buildStep_lookup_none dir opts w memo s h (hl s (List.mem_cons_self s tl)) hm
    simp only [execLoop]
    cases habort : (buildStep dir opts w memo s).abort with
    | some o => simpa [habort] using hstep
    | none =>
      simp only [habort]
      exact ih _ h hstep (fun s2 hs2 => hl s2 (List.mem_cons_of_mem s hs2))

theorem execLoop_lookup_some (dir : String) (opts : BuildOptions) (w : World) :
    ∀ (l : List Service) (memo : List (String × String)) (h v : String),
    mapLookup memo h = some v →
    mapLookup (execLoop dir opts w l memo).memo h = some v := by
  intro l
  induction l with
  | nil => intro memo h v hm; exact hm
  | cons s tl ih =>
    intro memo h v hm
    have hstep := buildStep_lookup_some dir opts w memo s h v hm
    simp only [execLoop]
    cases habort : (buildStep dir opts w memo s).abort with
    | some o => simpa [habort] using hstep
    | none =>
      simp only [habort]
      exact ih _ h v hstep

/-! ## tagLoop lemmas -/

theorem tagLoop_all_ok (w : World) (image : String) :
    ∀ tags, (∀ t ∈ tags, w.run ["tag", image, t] = none) →
    tagLoop w image tags = (tags.map (fun t => Ev.run ["tag", image, t]), none) := by
  intro tags
  induction tags with
  | nil => intro _; rfl
  | cons t rest ih =>
    intro h
    simp only [tagLoop, h t (List.mem_cons_self t rest), List.map_cons]
    rw [ih (fun t2 ht2 => h t2 (List.mem_cons_of_mem t ht2))]

theorem tagLoop_fail (w : World) (image : String) :
    ∀ (pre : List String) (t : String) (post : List String) (e : String),
    (∀ t2 ∈ pre, w.run ["tag", image, t2] = none) →
    w.run ["tag", image, t] = some e →
    tagLoop w image (pre ++ t :: post) =
      (pre.map (fun t2 => Ev.run ["tag", image, t2]) ++ [Ev.run ["tag", image, t]],
        some (.err ("build error: " ++ e))) := by
  intro pre
  induction pre with
  | nil =>
    intro t post e _ ht
    simp [tagLoop, ht]
  | cons p rest ih =>
    intro t post e hpre ht
    simp only [List.cons_append, tagLoop, hpre p (List.mem_cons_self p rest),
      List.append_eq]
    rw [ih t post e (fun t2 ht2 => hpre t2 (List.mem_cons_of_mem p ht2)) ht]
    simp

/-! ## Plan and pull-trace lemmas -/

theorem mem_addPull (p : List (String × List String)) (i t image : String)
    (tags : List String) (h : (image, tags) ∈ addPull p i t) :
    (∃ ts, (image, ts) ∈ p) ∨ image = i := by
  induction p with
  | nil =>
    simp only [addPull, List.mem_singleton, Prod.mk.injEq] at h
    exact Or.inr h.1
  | cons e rest ih =>
    obtain ⟨i0, ts0⟩ := e
    simp only [addPull] at h
    by_cases h0 : i0 = i
    · rw [if_pos h0] at h
      rcases List.mem_cons.mp h with hc | hc
      · rw [Prod.mk.injEq] at hc
        exact Or.inr (hc.1.trans h0)
      · exact Or.inl ⟨tags, List.mem_cons_of_mem _ hc⟩
    · rw [if_neg h0] at h
      rcases List.mem_cons.mp h with hc | hc
      · rw [Prod.mk.injEq] at hc
        refine Or.inl ⟨ts0, ?_⟩
        rw [hc.1]
        exact List.mem_cons_self _ _
      · rcases ih hc with ⟨ts, hts⟩ | he
        · exact Or.inl ⟨ts, List.mem_cons_of_mem _ hts⟩
        · exact Or.inr he

theorem planServices_keys_aux :
    ∀ (services : List Service) (acc : List (String × List String) × List Service)
      (image : String) (tags : List String),
    (image, tags) ∈ (services.foldl
        (fun acc service =>
          if service.image ≠ "" then
            (addPull acc.1 (normalizeImage service.image) service.tag, acc.2)
          else
            (acc.1, acc.2 ++ [service])) acc).1 →
    (∃ ts, (image, ts) ∈ acc.1) ∨
      ∃ s ∈ services, s.image ≠ "" ∧ image = normalizeImage s.image := by
  intro services
  induction services with
  | nil =>
    intro acc image tags h
    exact Or.inl ⟨tags, h⟩
  | cons s rest ih =>
    intro acc image tags h
    rw [List.foldl_cons] at h
    by_cases hs : s.image ≠ ""
    · rw [if_pos hs] at h
      rcases ih _ image tags h with ⟨ts, hts⟩ | ⟨s2, hs2, h2⟩
      · rcases mem_addPull _ _ _ _ _ hts with hin | heq
        · exact Or.inl hin
        · exact Or.inr ⟨s, List.mem_cons_self s rest, hs, heq⟩
      · exact Or.inr ⟨s2, List.mem_cons_of_mem s hs2, h2⟩
    · rw [if_neg hs] at h
      rcases ih _ image tags h with hin | ⟨s2, hs2, h2⟩
      · exact Or.inl hin
      · exact Or.inr ⟨s2, List.mem_cons_of_mem s hs2, h2⟩

theorem tagLoop_events_shape (w : World) (image : String) :
    ∀ (tags : List String) (ev : Ev), ev ∈ (tagLoop w image tags).1 →
    ∃ t, ev = Ev.run ["tag", image, t] := by
  intro tags
  induction tags with
  | nil => intro ev hev; simp [tagLoop] at hev
  | cons t rest ih =>
    intro ev hev
    simp only [tagLoop] at hev
    cases hr : w.run ["tag", image, t] with
    | some e =>
      rw [hr] at hev
      simp only [List.mem_singleton] at hev
      exact ⟨t, hev⟩
    | none =>
      rw [hr] at hev
      rcases List.mem_cons.mp hev with hc | hc
      · exact ⟨t, hc⟩
      · exact ih ev hc

/-! ## Claim theorems -/

/-- C6: `copyDir(src, dst)` fails when the source does not exist or is not
a directory; it fails when the destination already exists, returning the
error before performing any filesystem write, so the existing destination
is left completely unmodified; and on a source tree containing symbolic
links it succeeds with the link entries skipped and absent from the
destination. -/
theorem c6_copyDir_guards (sp dp : String) : C6Concl sp dp := by
  refine ⟨fun d => rfl, fun c m a t d2 => rfl, fun m es d => rfl, fun m es => ?_⟩
  refine ⟨.dir m (specCopyList es), ("mkdir " ++ dp) :: (copyEntriesGo sp dp es).1, ?_, ?_⟩
  · simp only [copyDirGo]
    rw [copyEntriesGo_spec]
  · simpa [entryHasLink] using specCopyList_noLink es

/-- C9 counterexample: copying a directory containing a regular file whose
access timestamp (100) differs from its modification timestamp (200)
produces a destination file whose access timestamp is 200, the source's
MODIFICATION time — not the source's access timestamp, as the claim
states.  (`Chtimes(dst, stat.ModTime(), stat.ModTime())`, build.go:247.) -/
theorem c9_atime_counterexample :
    copyDirGo "s" "d" (some (.dir 493 [("f", .file [104] 420 100 200)])) none
      = .ok (.dir 493 [("f", .file [104] 420 200 200)]) ["mkdir d", "create d/f"]
    ∧ (200 : Nat) ≠ 100 := ⟨rfl, by decide⟩

/-- C9 (amended): every regular file copied by the directory cache transfer
keeps its content bytes and permission bits, and BOTH its access and its
modification timestamp are set to the source file's modification time;
symbolic links are dropped and directories keep their mode — exactly the
`specCopyList` transformation. -/
theorem c9_amended_copy_metadata (sp dp : String) (m : Nat)
    (es : List (String × Entry)) :
    ∃ tr, copyDirGo sp dp (some (.dir m es)) none
      = .ok (.dir m (specCopyList es)) tr := by
  refine ⟨("mkdir " ++ dp) :: (copyEntriesGo sp dp es).1, ?_⟩
  simp only [copyDirGo]
  rw [copyEntriesGo_spec]

/-- C8: the claim that `buildArgs` is total on readable input is RIGHT and
the code is wrong: on a readable file containing a line whose only
whitespace-delimited token is `ARG`, build.go:207 evaluates `parts[1]` on a
one-element slice, an index-out-of-range panic, which the model records as
`panicOOB` and which takes down the whole Build run. -/
theorem c8_bare_arg_panics :
    buildArgsGo (.ok "FROM x\nARG\n") = .panicOOB
    ∧ (buildGo "d" (.ok [svcA]) optsPlain wBadArg).outcome = .panicked :=
  ⟨rfl, rfl⟩

/-- C3: an external image reference is normalized by appending `:latest`
exactly when its final `/`-separated segment carries no `:` — `"redis"`
becomes `"redis:latest"`, `"redis:1.2"` stays — every pull group of a plan
is keyed by such a normalized reference, and the pull step uses that same
key both in the `images -q` local-image query and in any `pull` command. -/
theorem c3_normalize_latest : C3Concl := by
  refine ⟨rfl, rfl, ?_, ?_, ?_⟩
  · intro image
    constructor
    · intro h
      simp only [normalizeImage, h]
      simp
    · intro h
      simp only [normalizeImage, h]
      simp
  · intro services image tags hmem
    have := planServices_keys_aux services ([], []) image tags hmem
    rcases this with ⟨ts, hts⟩ | h
    · simp at hts
    · exact h
  · intro opts w image tags
    constructor
    · cases hq : w.combinedOutput ["images", "-q", image] with
      | error e => simp [pullStep, hq]
      | ok out =>
        by_cases hc : opts.cache = false ∨ out = ""
        · cases hp : w.run ["pull", image] <;> simp [pullStep, hq, hc, hp]
        · simp [pullStep, hq, hc]
    · intro cmd hmem hhead
      unfold pullStep at hmem
      cases hq : w.combinedOutput ["images", "-q", image] with
      | error e =>
        simp only [hq] at hmem
        simp at hmem
      | ok out =>
        simp only [hq] at hmem
        by_cases hc : opts.cache = false ∨ out = ""
        · rw [if_pos hc] at hmem
          cases hp : w.run ["pull", image] with
          | some e =>
            rw [hp] at hmem
            simp only [List.mem_cons, List.not_mem_nil, or_false] at hmem
            rcases hmem with h1 | h1
            · exact absurd h1 (by simp)
            · exact Ev.run.inj h1
          | none =>
            rw [hp] at hmem
            rcases List.mem_cons.mp hmem with h1 | h1
            · exact absurd h1 (by simp)
            rcases List.mem_cons.mp h1 with h2 | h2
            · exact Ev.run.inj h2
            · rcases tagLoop_events_shape w image tags _ h2 with ⟨t, ht⟩
              rw [Ev.run.inj ht] at hhead
              simp at hhead
        · rw [if_neg hc] at hmem
          rcases List.mem_cons.mp hmem with h1 | h1
          · exact absurd h1 (by simp)
          · rcases tagLoop_events_shape w image tags _ h1 with ⟨t, ht⟩
            rw [Ev.run.inj ht] at hhead
            simp at hhead

/-- C7: on a readable build-definition file none of whose lines is a bare
`ARG`, `buildArgs` returns exactly the spec-described scan (first
whitespace-delimited token `ARG`, second token up to an optional `=`,
first-seen order, duplicates allowed); an unreadable file yields the read
error unchanged, and that error aborts the Build run that needed it. -/
theorem c7_buildArgs_scan (data : String)
    (h : ∀ line ∈ scanLines data, goFields line ≠ ["ARG"]) : C7Concl data := by
  refine ⟨?_, fun e => rfl, ?_⟩
  · have hscan := buildArgsScan_spec (scanLines data) h
    simp [buildArgsGo, hscan]
  · intro dir opts w s e hs hre
    have hplan : planServices [s] = ([], [s]) := by
      simp [planServices, hs]
    have hmiss : mapLookup [] s.build.hash = none := rfl
    have hba : buildArgsGo (w.readFile (dockerFilePath dir s)) = .readErr e := by
      rw [hre]
      rfl
    have hstep := buildStep_miss_readErr dir opts w [] s e hmiss hba
    simp [buildGo, hplan, execLoop, hstep]

/-- C7 witness: a concrete Dockerfile declaring `ARG A=1` and `ARG B`. -/
theorem c7_witness :
    (∀ line ∈ scanLines "FROM x\nARG A=1\nARG B\n", goFields line ≠ ["ARG"])
    ∧ C7Concl "FROM x\nARG A=1\nARG B\n" :=
  ⟨by decide, c7_buildArgs_scan "FROM x\nARG A=1\nARG B\n" (by decide)⟩

/-- C4: for a pull-group entry, the local-image query always runs first and
its failure aborts the run; the pull is issued exactly when caching is off
or the query output is empty, its failure aborting before any tag
operation; then one tag operation per registered destination tag runs in
recorded order, each failure aborting the run right there. -/
theorem c4_pull_step (opts : BuildOptions) (w : World) (image : String)
    (tags : List String) : C4Concl opts w image tags := by
  refine ⟨?_, ?_, ?_⟩
  · cases hq : w.combinedOutput ["images", "-q", image] with
    | error e => simp [pullStep, hq]
    | ok out =>
      by_cases hc : opts.cache = false ∨ out = ""
      · cases hp : w.run ["pull", image] <;> simp [pullStep, hq, hc, hp]
      · simp [pullStep, hq, hc]
  · intro e hq
    simp [pullStep, hq]
  · intro out hq
    refine ⟨?_, ?_, ?_, ?_⟩
    · constructor
      · intro hmem
        by_cases hc : opts.cache = false ∨ out = ""
        · exact hc
        · exfalso
          unfold pullStep at hmem
          simp only [hq] at hmem
          rw [if_neg hc] at hmem
          rcases List.mem_cons.mp hmem with h1 | h1
          · exact absurd h1 (by simp)
          · rcases tagLoop_events_shape w image tags _ h1 with ⟨t, ht⟩
            have := Ev.run.inj ht
            simp at this
      · intro hc
        cases hp : w.run ["pull", image] <;> simp [pullStep, hq, hc, hp]
    · intro e hc hp
      simp [pullStep, hq, hc, hp]
    · intro hpull htags
      by_cases hc : opts.cache = false ∨ out = ""
      · have hp := hpull hc
        simp [pullStep, hq, hc, hp, tagLoop_all_ok w image tags htags]
      · simp [pullStep, hq, hc, tagLoop_all_ok w image tags htags]
    · intro pre t post e htags hpull hpre ht
      subst htags
      by_cases hc : opts.cache = false ∨ out = ""
      · have hp := hpull hc
        simp [pullStep, hq, hc, hp, tagLoop_fail w image pre t post e hpre ht]
      · simp [pullStep, hq, hc, tagLoop_fail w image pre t post e hpre ht]

/-- The sink message produced by a failed restore copy whose error does not
mention a missing source (build.go:83-88). -/
theorem restoreEvents_sink_mem (dir : String) (opts : BuildOptions) (w : World)
    (hash e : String) (hcd : ¬ opts.cacheDir = "")
    (hstat : w.stat (goJoin opts.cacheDir hash) = .statOk)
    (hcp : w.copyDirRes (goJoin opts.cacheDir hash)
        (goJoin (goJoin dir ".cache") "build") = some e)
    (hmsg : goContainsStr e "no such file or directory" = false) :
    Ev.sink ("cache error: " ++ e) ∈ restoreEvents dir opts w hash := by
  unfold restoreEvents
  rw [if_neg hcd]
  simp [hstat, hcp, hmsg, List.mem_append]

/-- C5 counterexample: with a cache store configured and a restore copy
failing with "permission denied" (not a missing source), the whole Build
run still finishes with a normal return — the failure is only logged to the
sink, not fatal as the claim states. -/
theorem c5_counterexample :
    (buildGo "d" (.ok [svcA]) optsStore wCopyFail).outcome = .ok
    ∧ Ev.sink "cache error: permission denied"
        ∈ (buildGo "d" (.ok [svcA]) optsStore wCopyFail).events :=
  ⟨rfl, by decide⟩

/-- C5 (amended): a restore-copy failure whose message does not contain
"no such file or directory" is logged to the output sink as a cache error,
and the step's abort decision and memo update are identical to those of the
same step with a succeeding copy — the failure is non-fatal, it cannot
abort the Build run. -/
theorem c5_amended_restore_nonfatal (dir : String) (opts : BuildOptions)
    (w : World) (memo : List (String × String)) (s : Service) (e : String)
    (hmiss : mapLookup memo s.build.hash = none)
    (hcd : ¬ opts.cacheDir = "")
    (hstat : w.stat (goJoin opts.cacheDir s.build.hash) = .statOk)
    (hcp : w.copyDirRes (goJoin opts.cacheDir s.build.hash)
        (goJoin (goJoin dir ".cache") "build") = some e)
    (hmsg : goContainsStr e "no such file or directory" = false) :
    C5AmConcl dir opts w memo s e := by
  have hsink := restoreEvents_sink_mem dir opts w s.build.hash e hcd hstat hcp hmsg
  unfold C5AmConcl
  rcases hba : buildArgsGo (w.readFile (dockerFilePath dir s)) with e2 | _ | dba
  · rw [buildStep_miss_readErr dir opts w memo s e2 hmiss hba,
      buildStep_miss_readErr dir opts (forgetCopyErr w) memo s e2 hmiss hba]
    refine ⟨?_, rfl, rfl⟩
    exact List.mem_append_left _ hsink
  · rw [buildStep_miss_panic dir opts w memo s hmiss hba,
      buildStep_miss_panic dir opts (forgetCopyErr w) memo s hmiss hba]
    refine ⟨?_, rfl, rfl⟩
    exact List.mem_append_left _ hsink
  · cases hrun : w.run (assembleBuildCmd opts
        (mergeBargs s.build.args dba opts.environment)
        (dockerFilePath dir s) s.tag (contextPath dir s)) with
    | some e3 =>
      rw [buildStep_miss_buildFail dir opts w memo s dba e3 hmiss hba hrun,
        buildStep_miss_buildFail dir opts (forgetCopyErr w) memo s dba e3 hmiss hba hrun]
      refine ⟨?_, rfl, rfl⟩
      exact List.mem_append_left _ hsink
    | none =>
      rw [buildStep_miss_buildOk dir opts w memo s dba hmiss hba hrun,
        buildStep_miss_buildOk dir opts (forgetCopyErr w) memo s dba hmiss hba hrun]
      refine ⟨?_, rfl, rfl⟩
      exact List.mem_append_left _ (List.mem_append_left _ hsink)

/-- C5 amended witness: the counterexample's world, at the step level. -/
theorem c5_amended_witness :
    (mapLookup [] svcA.build.hash = none)
    ∧ (¬ optsStore.cacheDir = "")
    ∧ (wCopyFail.stat (goJoin optsStore.cacheDir svcA.build.hash) = .statOk)
    ∧ (wCopyFail.copyDirRes (goJoin optsStore.cacheDir svcA.build.hash)
        (goJoin (goJoin "d" ".cache") "build") = some "permission denied")
    ∧ (goContainsStr "permission denied" "no such file or directory" = false)
    ∧ C5AmConcl "d" optsStore wCopyFail [] svcA "permission denied" :=
  ⟨rfl, by decide, rfl, rfl, rfl,
    c5_amended_restore_nonfatal "d" optsStore wCopyFail [] svcA "permission denied"
      rfl (by decide) rfl rfl rfl⟩

theorem writeBackEvents_rmrf_mem (opts : BuildOptions) (w : World)
    (hash tag : String) (hcd : ¬ opts.cacheDir = "") :
    Ev.rmrf (goJoin opts.cacheDir hash) ∈ writeBackEvents opts w hash tag := by
  unfold writeBackEvents
  rw [if_neg hcd]
  simp [List.mem_append]

theorem writeBackEvents_create_sink (opts : BuildOptions) (w : World)
    (hash tag e : String) (hcd : ¬ opts.cacheDir = "")
    (h : w.run ["create", "--name", hash, tag] = some e) :
    Ev.sink ("cache error: " ++ e) ∈ writeBackEvents opts w hash tag := by
  unfold writeBackEvents
  rw [if_neg hcd]
  simp [h, List.mem_append]

theorem writeBackEvents_cp_sink (opts : BuildOptions) (w : World)
    (hash tag e : String) (hcd : ¬ opts.cacheDir = "")
    (h : w.run ["cp", hash ++ ":/var/cache/build", goJoin opts.cacheDir hash]
        = some e) :
    Ev.sink "ignoring build cache" ∈ writeBackEvents opts w hash tag := by
  unfold writeBackEvents
  rw [if_neg hcd]
  simp [h, List.mem_append]

theorem writeBackEvents_rm_sink (opts : BuildOptions) (w : World)
    (hash tag e : String) (hcd : ¬ opts.cacheDir = "")
    (h : w.run ["rm", hash] = some e) :
    Ev.sink ("cache error: " ++ e) ∈ writeBackEvents opts w hash tag := by
  unfold writeBackEvents
  rw [if_neg hcd]
  simp [h, List.mem_append]

/-- C10 counterexample: a Build run in which the stale cache-store entry
removal (`rm -rf store/h1`) fails, yet the full observable trace — written
out below — contains the removal's issuance and NO sink event whatsoever,
and the run returns normally: the failure is non-fatal but, contrary to
the claim, it is not logged to the output sink (build.go:149 discards the
`.Run()` error). -/
theorem c10_counterexample :
    wRmrfFail.rmrf (goJoin optsStore.cacheDir svcA.build.hash) = some "rm failed"
    ∧ buildGo "d" (.ok [svcA]) optsStore wRmrfFail
      = ⟨[Ev.readFile "d/sub/Dockerfile",
          Ev.run ["build", "-f", "d/sub/Dockerfile", "-t", "app/a", "d/sub"],
          Ev.run ["create", "--name", "h1", "app/a"],
          Ev.rmrf "store/h1",
          Ev.run ["cp", "h1:/var/cache/build", "store/h1"],
          Ev.run ["rm", "h1"]], .ok⟩ :=
  ⟨rfl, rfl⟩

/-- C10 (amended): with a cache store configured, after a successful build
command the write-back step can never abort the run: the step continues and
records the hash-to-tag memo entry; each failing temporary-container
command (create / cp / rm) is logged to the output sink; and the
stale-entry removal is issued with its result discarded — the step equals,
events included, the step in which that removal succeeds, so its failure is
neither fatal nor logged. -/
theorem c10_writeback_nonfatal (dir : String) (opts : BuildOptions) (w : World)
    (memo : List (String × String)) (s : Service) (dba : List String)
    (hcd : ¬ opts.cacheDir = "")
    (hmiss : mapLookup memo s.build.hash = none)
    (hba : buildArgsGo (w.readFile (dockerFilePath dir s)) = .ok dba)
    (hrun : w.run (assembleBuildCmd opts (mergeBargs s.build.args dba opts.environment)
        (dockerFilePath dir s) s.tag (contextPath dir s)) = none) :
    C10Concl dir opts w memo s := by
  have hstep := buildStep_miss_buildOk dir opts w memo s dba hmiss hba hrun
  unfold C10Concl
  rw [hstep]
  refine ⟨rfl, rfl, ?_, ?_, ?_, ?_, ?_⟩
  · exact List.mem_append_right _ (writeBackEvents_rmrf_mem opts w _ _ hcd)
  · intro e he
    exact List.mem_append_right _ (writeBackEvents_create_sink opts w _ _ e hcd he)
  · intro e he
    exact List.mem_append_right _ (writeBackEvents_cp_sink opts w _ _ e hcd he)
  · intro e he
    exact List.mem_append_right _ (writeBackEvents_rm_sink opts w _ _ e hcd he)
  · exact (buildStep_miss_buildOk dir opts (forgetRmrf w) memo s dba hmiss hba hrun).symm

/-- C10 witness: a run in which all three write-back commands fail while
the build command succeeds. -/
theorem c10_witness :
    (¬ optsStore.cacheDir = "")
    ∧ (mapLookup [] svcA.build.hash = none)
    ∧ (buildArgsGo (wWBFail.readFile (dockerFilePath "d" svcA)) = .ok [])
    ∧ (wWBFail.run (assembleBuildCmd optsStore
        (mergeBargs svcA.build.args [] optsStore.environment)
        (dockerFilePath "d" svcA) svcA.tag (contextPath "d" svcA)) = none)
    ∧ C10Concl "d" optsStore wWBFail [] svcA :=
  ⟨by decide, rfl, rfl, rfl,
    c10_writeback_nonfatal "d" optsStore wWBFail [] svcA []
      (by decide) rfl rfl rfl⟩

/-- C2: the assembled build command has the fixed shape — `build`, then
`--no-cache` exactly when caching is off, then one `--build-arg NAME=VALUE`
pair per merged argument with the pairs in lexicographically sorted name
order regardless of the argument map's iteration order, then `-f` with the
build-definition file path, `-t` with the destination tag, and the context
directory — and the merged arguments are the service's explicit map with
every declared name present in the environment set/overridden. -/
theorem c2_build_command_shape (dir : String) (opts : BuildOptions) (w : World)
    (memo : List (String × String)) (s : Service) (dba : List String)
    (hnd : (s.build.args.map Prod.fst).Nodup)
    (hmiss : mapLookup memo s.build.hash = none)
    (hargs : buildArgsGo (w.readFile (dockerFilePath dir s)) = .ok dba) :
    C2Concl dir opts w memo s dba := by
  have hres := restoreEvents_countP dir opts w s.build.hash isRunEv
    (fun _ => rfl) (fun _ => rfl) (fun _ _ => rfl)
  refine ⟨?_, ?_, ?_, ?_⟩
  · cases hrun : w.run (assembleBuildCmd opts
        (mergeBargs s.build.args dba opts.environment)
        (dockerFilePath dir s) s.tag (contextPath dir s)) with
    | some e =>
      rw [buildStep_miss_buildFail dir opts w memo s dba e hmiss hargs hrun]
      refine ⟨restoreEvents dir opts w s.build.hash ++ [Ev.readFile (dockerFilePath dir s)],
        [], ?_, ?_⟩
      · simp
      · simp [List.countP_append, List.countP_cons, hres, isRunEv]
    | none =>
      rw [buildStep_miss_buildOk dir opts w memo s dba hmiss hargs hrun]
      refine ⟨restoreEvents dir opts w s.build.hash ++ [Ev.readFile (dockerFilePath dir s)],
        writeBackEvents opts w s.build.hash s.tag, ?_, ?_⟩
      · simp
      · simp [List.countP_append, List.countP_cons, hres, isRunEv]
  · refine ⟨sortStrings ((mergeBargs s.build.args dba opts.environment).map Prod.fst),
      sortStrings_sorted _, sortStrings_perm _, ?_⟩
    unfold assembleBuildCmd bargFlags
    cases hcache : opts.cache <;> simp
  · intro k
    exact mapLookup_mergeBargs s.build.args dba opts.environment hnd k
  · intro args2 hperm
    have hnd2 : (args2.map Prod.fst).Nodup := ((hperm.map Prod.fst).symm.nodup hnd)
    have hlk : ∀ k, mapLookup args2 k = mapLookup s.build.args k :=
      mapLookup_perm args2 s.build.args hperm hnd2
    have hmerged : ∀ k, mapLookup (mergeBargs args2 dba opts.environment) k
        = mapLookup (mergeBargs s.build.args dba opts.environment) k := by
      intro k
      rw [mapLookup_mergeBargs args2 dba opts.environment hnd2 k,
        mapLookup_mergeBargs s.build.args dba opts.environment hnd k, hlk k]
    have hflags : bargFlags (mergeBargs args2 dba opts.environment)
        = bargFlags (mergeBargs s.build.args dba opts.environment) :=
      bargFlags_congr _ _ (nodup_keys_mergeBargs args2 dba opts.environment)
        (nodup_keys_mergeBargs s.build.args dba opts.environment) hmerged
    unfold assembleBuildCmd
    rw [hflags]

/-- C2 witness: explicit arguments `B=2, A=1` (in that iteration order), a
Dockerfile declaring `ARG A=1` and `ARG C`, environment `C=3`. -/
theorem c2_witness :
    ((svcC.build.args.map Prod.fst).Nodup)
    ∧ (mapLookup [] svcC.build.hash = none)
    ∧ (buildArgsGo (wArgsC.readFile (dockerFilePath "d" svcC)) = .ok ["A", "C"])
    ∧ C2Concl "d" optsEnvC wArgsC [] svcC ["A", "C"] :=
  ⟨by decide, rfl, rfl,
    c2_build_command_shape "d" optsEnvC wArgsC [] svcC ["A", "C"]
      (by decide) rfl rfl⟩

/-- A memo-miss step that does not abort must have read the build-definition
file successfully and run the assembled build command successfully. -/
theorem buildStep_no_abort_miss (dir : String) (opts : BuildOptions) (w : World)
    (memo : List (String × String)) (s : Service)
    (hmiss : mapLookup memo s.build.hash = none)
    (habort : (buildStep dir opts w memo s).abort = none) :
    ∃ dba, buildArgsGo (w.readFile (dockerFilePath dir s)) = .ok dba ∧
      w.run (assembleBuildCmd opts (mergeBargs s.build.args dba opts.environment)
        (dockerFilePath dir s) s.tag (contextPath dir s)) = none := by
  rcases hba : buildArgsGo (w.readFile (dockerFilePath dir s)) with e | _ | dba
  · rw [buildStep_miss_readErr dir opts w memo s e hmiss hba] at habort
    simp at habort
  · rw [buildStep_miss_panic dir opts w memo s hmiss hba] at habort
    simp at habort
  · cases hrun : w.run (assembleBuildCmd opts
        (mergeBargs s.build.args dba opts.environment)
        (dockerFilePath dir s) s.tag (contextPath dir s)) with
    | some e =>
      rw [buildStep_miss_buildFail dir opts w memo s dba e hmiss hba hrun] at habort
      simp at habort
    | none => exact ⟨dba, rfl, hrun⟩

/-- C1: in a run of the executor over `pre ++ s1 :: mid ++ [s2]` from an
empty memo, where `s1` is the first service with its content hash and `s2`
shares that hash, and no step aborts: the trace splits into the per-service
parts, `s1`'s part contains exactly one build-command invocation, and
`s2`'s part is exactly the single tag-only operation from `s1`'s
destination tag to `s2`'s destination tag. -/
theorem c1_memo_dedup (dir : String) (opts : BuildOptions) (w : World)
    (pre mid : List Service) (s1 s2 : Service)
    (hh : s1.build.hash = s2.build.hash)
    (hpre : ∀ s ∈ pre, s.build.hash ≠ s1.build.hash)
    (hdone : (execLoop dir opts w (pre ++ s1 :: mid ++ [s2]) []).abort = none) :
    C1Concl dir opts w pre mid s1 s2 := by
  have hsplitA := execLoop_append dir opts w (pre ++ (s1 :: mid)) [s2] []
  have hsplitB := execLoop_append dir opts w pre (s1 :: mid) []
  cases habortP1 : (execLoop dir opts w (pre ++ (s1 :: mid)) []).abort with
  | some o =>
    rw [hsplitA] at hdone
    simp [habortP1] at hdone
  | none =>
  cases habortPre : (execLoop dir opts w pre []).abort with
  | some o =>
    rw [hsplitB] at habortP1
    simp [habortPre] at habortP1
  | none =>
  cases habort1 : (buildStep dir opts w (execLoop dir opts w pre []).memo s1).abort with
  | some o =>
    rw [hsplitB] at habortP1
    simp only [habortPre] at habortP1
    simp only [execLoop, habort1] at habortP1
    simp at habortP1
  | none =>
  cases habortMid : (execLoop dir opts w mid
      (buildStep dir opts w (execLoop dir opts w pre []).memo s1).memo).abort with
  | some o =>
    rw [hsplitB] at habortP1
    simp only [habortPre] at habortP1
    simp only [execLoop, habort1] at habortP1
    simp [habortMid] at habortP1
  | none =>
  have hmiss1 : mapLookup (execLoop dir opts w pre []).memo s1.build.hash = none :=
    execLoop_lookup_none dir opts w pre [] s1.build.hash rfl hpre
  obtain ⟨dba, hba, hrun⟩ :=
    buildStep_no_abort_miss dir opts w (execLoop dir opts w pre []).memo s1 hmiss1 habort1
  have hr1 := buildStep_miss_buildOk dir opts w (execLoop dir opts w pre []).memo s1
    dba hmiss1 hba hrun
  have hsome1 : mapLookup (buildStep dir opts w (execLoop dir opts w pre []).memo s1).memo
      s1.build.hash = some s1.tag := by
    rw [hr1]
    simp [mapLookup_mapInsert]
  have hsome2 : mapLookup (execLoop dir opts w mid
      (buildStep dir opts w (execLoop dir opts w pre []).memo s1).memo).memo
      s1.build.hash = some s1.tag :=
    execLoop_lookup_some dir opts w mid _ s1.build.hash s1.tag hsome1
  have hsome2' : mapLookup (execLoop dir opts w mid
      (buildStep dir opts w (execLoop dir opts w pre []).memo s1).memo).memo
      s2.build.hash = some s1.tag := by
    rw [← hh]
    exact hsome2
  have hstep2 := buildStep_hit dir opts w (execLoop dir opts w mid
      (buildStep dir opts w (execLoop dir opts w pre []).memo s1).memo).memo
    s2 s1.tag hsome2'
  have hmemoP1 : (execLoop dir opts w (pre ++ (s1 :: mid)) []).memo
      = (execLoop dir opts w mid
          (buildStep dir opts w (execLoop dir opts w pre []).memo s1).memo).memo := by
    rw [hsplitB]
    simp only [habortPre]
    simp only [execLoop, habort1]
  have heventsP1 : (execLoop dir opts w (pre ++ (s1 :: mid)) []).events
      = (execLoop dir opts w pre []).events
        ++ ((buildStep dir opts w (execLoop dir opts w pre []).memo s1).events
          ++ (execLoop dir opts w mid
              (buildStep dir opts w (execLoop dir opts w pre []).memo s1).memo).events) := by
    rw [hsplitB]
    simp only [habortPre]
    simp only [execLoop, habort1]
  refine ⟨?_, ?_, hsome2'⟩
  · rw [hsplitA]
    simp only [habortP1]
    rw [heventsP1, hmemoP1]
    cases hr2 : w.run ["tag", s1.tag, s2.tag] <;>
      simp [execLoop, hstep2, hr2, List.append_assoc]
  · rw [hr1]
    have hres := restoreEvents_countP dir opts w s1.build.hash isBuildCmdEv
      (fun _ => rfl) (fun _ => rfl) (fun _ _ => rfl)
    simp [List.countP_append, List.countP_cons, hres,
      writeBackEvents_countP_build, isBuildCmdEv_assemble, isBuildCmdEv]
    simp [assembleBuildCmd, List.cons_append]

/-- C1 witness: two one-hash services `svcA`, `svcB` in a run where every
external operation succeeds. -/
theorem c1_witness :
    (svcA.build.hash = svcB.build.hash)
    ∧ (∀ s ∈ ([] : List Service), s.build.hash ≠ svcA.build.hash)
    ∧ ((execLoop "d" optsPlain wOK ([] ++ svcA :: [] ++ [svcB]) []).abort = none)
    ∧ C1Concl "d" optsPlain wOK [] [] svcA svcB :=
  ⟨rfl, by simp, rfl,
    c1_memo_dedup "d" optsPlain wOK [] [] svcA svcB rfl (by simp) rfl⟩

end Rack
